import Mathlib

/-!
Verification of the serde-json-core deserializer.

A shallow embedding of the JSON deserialization engine of this repository
(`src/de/mod.rs` and `src/de/string_unescaper.rs`) together with proofs of the
specified properties.

Byte buffers are modelled as `List Nat` (each element a byte value < 256 in
every real run; the definitions never depend on that bound).  Fallible Rust
code returning `Result<T, Error>` is modelled with explicit result inductives;
a Rust panic (a failed `unwrap` or an out-of-bounds slice index) is a distinct
outcome `rustPanic`.  Loops whose progress measure is a cursor moving through
the buffer are given an explicit fuel argument so that every definition is
kernel-computable; the entry points pass `buffer.length + 1` fuel, which is
always sufficient (each iteration advances the read cursor by at least one),
and the `fuelOut` outcome is an artifact of the embedding that the entry
points never produce.
-/

set_option maxHeartbeats 1000000

namespace SerdeJsonCore

/-- The error taxonomy of `src/de/mod.rs` (`enum Error`, lines 22-83).
The `custom-error-messages` feature variant is out of scope; `CustomError`
covers the message-discarding variant used by the binding layer. -/
inductive Error where
  | EofWhileParsingList
  | EofWhileParsingObject
  | EofWhileParsingString
  | EofWhileParsingNumber
  | EofWhileParsingValue
  | ExpectedColon
  | ExpectedListCommaOrEnd
  | ExpectedObjectCommaOrEnd
  | ExpectedSomeIdent
  | ExpectedSomeValue
  | InvalidNumber
  | InvalidType
  | InvalidUnicodeCodePoint
  | KeyMustBeAString
  | TrailingCharacters
  | TrailingComma
  | InvalidEscape
  | CustomError
  deriving DecidableEq, Repr

instance {ε α : Type} [DecidableEq ε] [DecidableEq α] : DecidableEq (Except ε α) := fun x y =>
  match x, y with
  | .ok a, .ok b => if h : a = b then .isTrue (by rw [h]) else .isFalse (by simp [h])
  | .error a, .error b => if h : a = b then .isTrue (by rw [h]) else .isFalse (by simp [h])
  | .ok _, .error _ => .isFalse (by simp)
  | .error _, .ok _ => .isFalse (by simp)

/-! ## String unescaper (`src/de/string_unescaper.rs`) -/

/-- Outcome of the in-place unescaper.  `ok buffer w r` returns the mutated
buffer together with the pair `(w, r)` that the Rust function returns as
`(unescaped_length, bytes_consumed_including_quote)`.  `rustPanic` models a
Rust panic (the `char::from_u32(..).unwrap()` on line 37, or an out-of-bounds
slice write).  `fuelOut` is an artifact of the fuel-based embedding; the
public entry point never produces it. -/
inductive URes where
  | ok (buffer : List Nat) (w : Nat) (r : Nat)
  | err (e : Error)
  | rustPanic
  | fuelOut
  deriving DecidableEq, Repr

/-- Value of one hex digit byte, as accepted by `u32::from_str_radix(_, 16)`
(digits `0-9`, `a-f`, `A-F`). -/
def hexVal (b : Nat) : Option Nat :=
  if 0x30 ≤ b ∧ b ≤ 0x39 then some (b - 0x30)
  else if 0x41 ≤ b ∧ b ≤ 0x46 then some (b - 0x41 + 10)
  else if 0x61 ≤ b ∧ b ≤ 0x66 then some (b - 0x61 + 10)
  else none

/-- Accumulate hex digits; `none` if the list is empty or any byte is not a
hex digit. -/
def hexDigitsVal : List Nat → Nat → Option Nat
  | [], acc => some acc
  | b :: rest, acc =>
    match hexVal b with
    | some d => hexDigitsVal rest (acc * 16 + d)
    | none => none

/-- Model of `str::from_utf8` + `u32::from_str_radix(s, 16)` applied to the 4
escape bytes (`string_unescaper.rs` lines 35-36).  `from_str_radix` accepts an
optional leading `+` for an unsigned target; any byte sequence that is not
valid UTF-8 contains a non-ASCII byte, which is also not a hex digit, so the
two failure paths (`Utf8Error` and `ParseIntError`) collapse to the same
`InvalidEscape` result and are modelled together as `none`.  Four hex digits
can never overflow `u32`. -/
def u32_from_hex_str (bytes : List Nat) : Option Nat :=
  match bytes with
  | [] => none
  | b :: rest =>
    if b = 0x2B then
      match rest with
      | [] => none
      | _ => hexDigitsVal rest 0
    else hexDigitsVal (b :: rest) 0

/-- Model of `core::char::from_u32`: `none` exactly on surrogate code points
`0xD800..=0xDFFF` and on values above `0x10FFFF`. -/
def char_from_u32_isSome (cp : Nat) : Bool :=
  decide (¬ (0xD800 ≤ cp ∧ cp ≤ 0xDFFF) ∧ cp ≤ 0x10FFFF)

/-- The UTF-8 encoding of a Unicode scalar value, as produced by
`char::encode_utf8`. -/
def utf8EncodeChar (cp : Nat) : List Nat :=
  if cp < 0x80 then [cp]
  else if cp < 0x800 then [0xC0 + cp / 0x40, 0x80 + cp % 0x40]
  else if cp < 0x10000 then
    [0xE0 + cp / 0x1000, 0x80 + cp / 0x40 % 0x40, 0x80 + cp % 0x40]
  else
    [0xF0 + cp / 0x40000, 0x80 + cp / 0x1000 % 0x40,
     0x80 + cp / 0x40 % 0x40, 0x80 + cp % 0x40]

/-- Overwrite `buffer[w .. w + bytes.length)` with `bytes` (the caller checks
that the write stays in bounds, mirroring the bounds checks that Rust slice
indexing performs). -/
def overwriteAt (buffer : List Nat) (w : Nat) (bytes : List Nat) : List Nat :=
  buffer.take w ++ bytes ++ buffer.drop (w + bytes.length)

/-- The loop of `unescape_string_to_termination` (`string_unescaper.rs` lines
14-50), with the buffer, write cursor `w` and read cursor `r` as explicit
state.  Every iteration advances `r` by at least 1, so fuel
`buffer.length + 1 - r` always suffices.  Single-byte writes `buffer[w] = b`
and the `encode_utf8(&mut buffer[w..])` write panic in Rust when out of
bounds; those cases are `rustPanic` here. -/
def unescapeLoop : Nat → List Nat → Nat → Nat → URes
  | 0, _, _, _ => .fuelOut
  | fuel + 1, buffer, w, r =>
    if buffer.length < r + 1 then .err .EofWhileParsingString
    else
      let read_byte := buffer.getD r 0
      let r := r + 1
      if read_byte = 0x5C then      -- backslash
        if buffer.length < r + 1 then .err .EofWhileParsingString
        else
          let escaped_byte := buffer.getD r 0
          let r := r + 1
          if escaped_byte = 0x5C ∨ escaped_byte = 0x2F ∨ escaped_byte = 0x22 then
            -- backslash, slash or quote escape: emit the literal second character
            if w < buffer.length then
              unescapeLoop fuel (buffer.set w escaped_byte) (w + 1) r
            else .rustPanic
          else if escaped_byte = 0x75 then   -- the letter u: unicode escape
            if buffer.length < r + 4 then .err .EofWhileParsingString
            else
              match u32_from_hex_str ((buffer.drop r).take 4) with
              | none => .err .InvalidEscape
              | some cp =>
                if char_from_u32_isSome cp then
                  let enc := utf8EncodeChar cp
                  if w + enc.length ≤ buffer.length then
                    unescapeLoop fuel (overwriteAt buffer w enc) (w + enc.length) (r + 4)
                  else .rustPanic
                else .rustPanic   -- char::from_u32(..).unwrap() fails (line 37)
          else .err .InvalidEscape
      else if read_byte = 0x22 then  -- terminating quote
        .ok buffer w r
      else
        if w < buffer.length then
          unescapeLoop fuel (buffer.set w read_byte) (w + 1) r
        else .rustPanic

/-- Model of `unescape_string_to_termination` (`string_unescaper.rs` line 11): run the
loop from `w = 0`, `r = 0` with always-sufficient fuel. -/
def unescape_string_to_termination (buffer : List Nat) : URes :=
  unescapeLoop (buffer.length + 1) buffer 0 0

/-! ## Cursor/Deserializer (`src/de/mod.rs`) -/

/-- The `Deserializer` state (`mod.rs` lines 92-95): the current slice and an
index into it.  `parse_str` (via `consume_passed`) replaces the slice with a
suffix of itself, so the slice is part of the state. -/
structure De where
  slice : List Nat
  index : Nat
  deriving DecidableEq, Repr

/-- Result of one deserializer operation: the produced value and the state
after it, an `Error`, a Rust panic, or the fuel artifact (never produced by
the entry points; spec-modelled adapter loops carry fuel). -/
inductive PRes (α : Type) where
  | ok (a : α) (s : De)
  | err (e : Error)
  | rustPanic
  | outOfFuel
  deriving DecidableEq, Repr

/-- Model of `Deserializer::peek` (`mod.rs` line 213): `slice.get(index)`. -/
def peek (s : De) : Option Nat :=
  s.slice.get? s.index

/-- Model of `Deserializer::eat_char` (`mod.rs` line 102). -/
def eat_char (s : De) : De :=
  { s with index := s.index + 1 }

/-- Whitespace bytes consumed by `parse_whitespace` (`mod.rs` line 203):
space, newline, tab, carriage return. -/
def isWs (b : Nat) : Bool :=
  b = 0x20 || b = 0x0A || b = 0x09 || b = 0x0D

/-- Number of leading whitespace bytes: the loop of `parse_whitespace`
(`mod.rs` lines 200-211) advances the index exactly this far. -/
def skipWs : List Nat → Nat
  | [] => 0
  | b :: rest => if isWs b then skipWs rest + 1 else 0

/-- Model of `Deserializer::parse_whitespace` (`mod.rs` lines 200-211): consume all
leading whitespace and return a peek at the next byte (`none` at the end). -/
def parse_whitespace (s : De) : Option Nat × De :=
  let s' : De := { s with index := s.index + skipWs (s.slice.drop s.index) }
  (peek s', s')

/-- Model of `Deserializer::end` (`mod.rs` lines 106-111); named `de_end` because `end`
is reserved in Lean. -/
def de_end (s : De) : PRes Unit :=
  match parse_whitespace s with
  | (some _, _) => .err .TrailingCharacters
  | (none, s') => .ok () s'

/-- Model of `Deserializer::end_seq` (`mod.rs` lines 113-128). -/
def end_seq (s : De) : PRes Unit :=
  match parse_whitespace s with
  | (none, _) => .err .EofWhileParsingList
  | (some b, s) =>
    if b = 0x5D then .ok () (eat_char s)           -- closing bracket
    else if b = 0x2C then                          -- comma
      match parse_whitespace (eat_char s) with
      | (some b2, _) => if b2 = 0x5D then .err .TrailingComma else .err .TrailingCharacters
      | (none, _) => .err .TrailingCharacters
    else .err .TrailingCharacters

/-- Model of `Deserializer::end_map` (`mod.rs` lines 130-142). -/
def end_map (s : De) : PRes Unit :=
  match parse_whitespace s with
  | (none, _) => .err .EofWhileParsingObject
  | (some b, s) =>
    if b = 0x7D then .ok () (eat_char s)           -- closing brace
    else if b = 0x2C then .err .TrailingComma      -- comma
    else .err .TrailingCharacters

/-- Model of `Deserializer::parse_ident` (`mod.rs` lines 154-162): each expected byte
must equal the next consumed byte. -/
def parse_ident (ident : List Nat) (s : De) : PRes Unit :=
  match ident with
  | [] => .ok () s
  | c :: rest =>
    match peek s with
    | some b => if b = c then parse_ident rest (eat_char s) else .err .ExpectedSomeIdent
    | none => .err .ExpectedSomeIdent

/-- Model of `Deserializer::parse_object_colon` (`mod.rs` lines 164-175). -/
def parse_object_colon (s : De) : PRes Unit :=
  match parse_whitespace s with
  | (none, _) => .err .EofWhileParsingObject
  | (some b, s) =>
    if b = 0x3A then .ok () (eat_char s) else .err .ExpectedColon

/-! ### UTF-8 validity (model of `str::from_utf8`, used by `parse_str`) -/

/-- Is `b` a UTF-8 continuation byte `0x80..=0xBF`? -/
def utf8Cont (b : Nat) : Bool :=
  0x80 ≤ b && b ≤ 0xBF

/-- RFC 3629 well-formedness of a byte sequence, as checked by the Rust function `str::from_utf8` (overlong forms, surrogates and values above `0x10FFFF` are
invalid). -/
def utf8Valid : List Nat → Bool
  | [] => true
  | b :: rest =>
    if b ≤ 0x7F then utf8Valid rest
    else if 0xC2 ≤ b && b ≤ 0xDF then
      match rest with
      | b2 :: rest2 => utf8Cont b2 && utf8Valid rest2
      | [] => false
    else if b = 0xE0 then
      match rest with
      | b2 :: b3 :: rest3 => (0xA0 ≤ b2 && b2 ≤ 0xBF) && utf8Cont b3 && utf8Valid rest3
      | _ => false
    else if (0xE1 ≤ b && b ≤ 0xEC) || b = 0xEE || b = 0xEF then
      match rest with
      | b2 :: b3 :: rest3 => utf8Cont b2 && utf8Cont b3 && utf8Valid rest3
      | _ => false
    else if b = 0xED then
      match rest with
      | b2 :: b3 :: rest3 => (0x80 ≤ b2 && b2 ≤ 0x9F) && utf8Cont b3 && utf8Valid rest3
      | _ => false
    else if b = 0xF0 then
      match rest with
      | b2 :: b3 :: b4 :: rest4 =>
        (0x90 ≤ b2 && b2 ≤ 0xBF) && utf8Cont b3 && utf8Cont b4 && utf8Valid rest4
      | _ => false
    else if 0xF1 ≤ b && b ≤ 0xF3 then
      match rest with
      | b2 :: b3 :: b4 :: rest4 =>
        utf8Cont b2 && utf8Cont b3 && utf8Cont b4 && utf8Valid rest4
      | _ => false
    else if b = 0xF4 then
      match rest with
      | b2 :: b3 :: b4 :: rest4 =>
        (0x80 ≤ b2 && b2 ≤ 0x8F) && utf8Cont b3 && utf8Cont b4 && utf8Valid rest4
      | _ => false
    else false

/-- Model of `Deserializer::parse_str` (`mod.rs` lines 177-185).  `consume_passed`
(lines 187-197) splits off the already-consumed prefix: the unescaper runs on
`slice.drop index`; afterwards the unescaped content (the first `string_end`
bytes of the mutated region) is split off as the borrowed string, the
deserializer keeps the bytes from `string_end` on, and its index becomes
`quote - string_end`.  `str::from_utf8` failure is `InvalidUnicodeCodePoint`.
The `fuelOut` outcome of the unescaper is unreachable (see `unescapeLoop_no_fuelOut`). -/
def parse_str (s : De) : PRes (List Nat) :=
  let rem := s.slice.drop s.index
  match unescape_string_to_termination rem with
  | .ok buf string_end quote =>
    let content := buf.take string_end
    if utf8Valid content then
      .ok content { slice := buf.drop string_end, index := quote - string_end }
    else .err .InvalidUnicodeCodePoint
  | .err e => .err e
  | .rustPanic => .rustPanic
  | .fuelOut => .outOfFuel

/-! ### Numeric parsers (`mod.rs` lines 221-318) -/

/-- Is `b` an ASCII digit `0x30..=0x39`? -/
def isDigit (b : Nat) : Bool :=
  0x30 ≤ b && b ≤ 0x39

/-- The accumulation loop of `deserialize_unsigned!` (`mod.rs` lines 237-249)
on the remaining bytes (the head of the list is `self.peek()`): while the next
byte is a digit, consume it and apply `checked_mul(10)` then
`checked_add(digit)` against the maximum of the target width `MAX`; the first
non-digit (or the end) returns the number.  Returns the number and how many
bytes were consumed. -/
def digitLoopU (MAX : Nat) : Nat → List Nat → Except Error (Nat × Nat)
  | number, c :: rest =>
    if isDigit c then
      if number * 10 ≤ MAX then           -- checked_mul(10)
        if number * 10 + (c - 0x30) ≤ MAX then  -- checked_add of the digit value
          match digitLoopU MAX (number * 10 + (c - 0x30)) rest with
          | .ok (v, k) => .ok (v, k + 1)
          | .error e => .error e
        else .error .InvalidNumber
      else .error .InvalidNumber
    else .ok (number, 0)
  | number, [] => .ok (number, 0)

/-- Model of `deserialize_unsigned!` (`mod.rs` lines 221-254) for a target width with
maximum value `MAX` (e.g. 255 for `u8`), with the visitor returning the parsed
number itself. -/
def deserialize_unsigned (MAX : Nat) (s : De) : PRes Nat :=
  match parse_whitespace s with
  | (none, _) => .err .EofWhileParsingValue
  | (some pk, s) =>
    if pk = 0x2D then .err .InvalidNumber          -- minus sign
    else if pk = 0x30 then .ok 0 (eat_char s)      -- digit zero
    else if 0x31 ≤ pk ∧ pk ≤ 0x39 then
      let s := eat_char s
      match digitLoopU MAX (pk - 0x30) (s.slice.drop s.index) with
      | .ok (v, k) => .ok v { s with index := s.index + k }
      | .error e => .err e
    else .err .InvalidType

/-- The accumulation loop of `deserialize_signed!` (`mod.rs` lines 278-290):
`checked_mul(10)` then `checked_add(±digit)` against the signed range
`[MIN, MAX]` of the target width. -/
def digitLoopS (MIN MAX : Int) (signed : Bool) : Int → List Nat → Except Error (Int × Nat)
  | number, c :: rest =>
    if isDigit c then
      if MIN ≤ number * 10 ∧ number * 10 ≤ MAX then   -- checked_mul(10)
        let a := number * 10 + (c - 0x30 : Nat) * (if signed then -1 else 1)
        if MIN ≤ a ∧ a ≤ MAX then                      -- checked_add
          match digitLoopS MIN MAX signed a rest with
          | .ok (v, k) => .ok (v, k + 1)
          | .error e => .error e
        else .error .InvalidNumber
      else .error .InvalidNumber
    else .ok (number, 0)
  | number, [] => .ok (number, 0)

/-- Model of `deserialize_signed!` (`mod.rs` lines 256-295) for a target width with
range `[MIN, MAX]` (e.g. `[-128, 127]` for `i8`), with the visitor returning
the parsed number itself. -/
def deserialize_signed (MIN MAX : Int) (s : De) : PRes Int :=
  match parse_whitespace s with
  | (none, _) => .err .EofWhileParsingValue
  | (some pk, s) =>
    let signed : Bool := pk = 0x2D
    let s := if signed then eat_char s else s
    match peek s with
    | none => .err .EofWhileParsingValue
    | some c =>
      if c = 0x30 then .ok 0 (eat_char s)            -- digit zero (also right after a minus sign)
      else if 0x31 ≤ c ∧ c ≤ 0x39 then
        let n0 : Int := (c - 0x30 : Nat) * (if signed then -1 else 1)
        let s := eat_char s
        match digitLoopS MIN MAX signed n0 (s.slice.drop s.index) with
        | .ok (v, k) => .ok v { s with index := s.index + k }
        | .error e => .err e
      else .err .InvalidType

/-- Model of `deserialize_bool` (`mod.rs` lines 331-350). -/
def deserialize_bool (s : De) : PRes Bool :=
  match parse_whitespace s with
  | (none, _) => .err .EofWhileParsingValue
  | (some pk, s) =>
    if pk = 0x74 then                                -- the letter t
      match parse_ident [0x72, 0x75, 0x65] (eat_char s) with   -- the letters rue
      | .ok _ s => .ok true s
      | .err e => .err e
      | .rustPanic => .rustPanic
      | .outOfFuel => .outOfFuel
    else if pk = 0x66 then                           -- the letter f
      match parse_ident [0x61, 0x6C, 0x73, 0x65] (eat_char s) with  -- the letters alse
      | .ok _ s => .ok false s
      | .err e => .err e
      | .rustPanic => .rustPanic
      | .outOfFuel => .outOfFuel
    else .err .InvalidType

/-- The byte set `b"0123456789+-.eE"` of `deserialize_f32`/`f64`
(`mod.rs` lines 413, 421). -/
def floatChar (b : Nat) : Bool :=
  isDigit b || b = 0x2B || b = 0x2D || b = 0x2E || b = 0x65 || b = 0x45

/-- The scan loop of `deserialize_fromstr!` (`mod.rs` lines 300-317) on the
remaining bytes: collect the run of bytes in the float character set; the
first byte outside the set ends the token; reaching the end of input inside
the scan is `EofWhileParsingNumber` (line 314).  Returns the token. -/
def fromstrLoop : List Nat → Except Error (List Nat)
  | [] => .error .EofWhileParsingNumber
  | c :: rest =>
    if floatChar c then
      match fromstrLoop rest with
      | .ok tok => .ok (c :: tok)
      | .error e => .error e
    else .ok []

/-- Model of `deserialize_f32`/`deserialize_f64` (`mod.rs` lines 408-422 plus the
`deserialize_fromstr!` macro, lines 297-318).  The text-to-float conversion
(`f32::from_str`) is the external standard-library collaborator; it is a
parameter `conv`, with `none` modelling its failure (mapped to
`InvalidNumber`, line 310). -/
def deserialize_fromstr (conv : List Nat → Option α) (s : De) : PRes α :=
  match parse_whitespace s with
  | (none, _) => .err .EofWhileParsingValue
  | (some _, s) =>
    match fromstrLoop (s.slice.drop s.index) with
    | .ok tok =>
      match conv tok with
      | some v => .ok v { s with index := s.index + tok.length }
      | none => .err .InvalidNumber
    | .error e => .err e

/-- Model of `deserialize_str` (`mod.rs` lines 431-444), with the visitor returning the
borrowed string (as its byte list). -/
def deserialize_str (s : De) : PRes (List Nat) :=
  match parse_whitespace s with
  | (none, _) => .err .EofWhileParsingValue
  | (some pk, s) =>
    if pk = 0x22 then parse_str (eat_char s) else .err .InvalidType

/-- Model of `deserialize_seq` (`mod.rs` lines 508-523): peek — without skipping
whitespace — must be `[`; then the visitor drives the sequence adapter
(`visit` stands for `visitor.visit_seq(SeqAccess::new(self))`), then
`end_seq` checks the terminator. -/
def deserialize_seq (visit : De → PRes α) (s : De) : PRes α :=
  match peek s with
  | none => .err .EofWhileParsingValue
  | some pk =>
    if pk = 0x5B then                                -- opening bracket
      match visit (eat_char s) with
      | .ok ret s =>
        match end_seq s with
        | .ok _ s => .ok ret s
        | .err e => .err e
        | .rustPanic => .rustPanic
        | .outOfFuel => .outOfFuel
      | .err e => .err e
      | .rustPanic => .rustPanic
      | .outOfFuel => .outOfFuel
    else .err .InvalidType

/-- Model of `deserialize_tuple` (`mod.rs` lines 525-530): delegates to
`deserialize_seq`. -/
def deserialize_tuple (visit : De → PRes α) (s : De) : PRes α :=
  deserialize_seq visit s

/-- Model of `deserialize_tuple_struct` (`mod.rs` lines 532-542): delegates to
`deserialize_seq`. -/
def deserialize_tuple_struct (visit : De → PRes α) (s : De) : PRes α :=
  deserialize_seq visit s

/-- Model of `deserialize_map` (`mod.rs` lines 544-561): `parse_whitespace` (unlike
`deserialize_seq`) then `{`; the visitor drives the map adapter, then
`end_map`. -/
def deserialize_map (visit : De → PRes α) (s : De) : PRes α :=
  match parse_whitespace s with
  | (none, _) => .err .EofWhileParsingValue
  | (some pk, s) =>
    if pk = 0x7B then                                -- opening brace
      match visit (eat_char s) with
      | .ok ret s =>
        match end_map s with
        | .ok _ s => .ok ret s
        | .err e => .err e
        | .rustPanic => .rustPanic
        | .outOfFuel => .outOfFuel
      | .err e => .err e
      | .rustPanic => .rustPanic
      | .outOfFuel => .outOfFuel
    else .err .InvalidType

/-! ### Structural adapters and binding layer

The adapter modules (`seq.rs`, `map.rs`, `enum_.rs`) and the serde binding
layer are not among the provided sources; the definitions below are modelled
from the spec (§4.4 Structural Adapters, §6 binding-layer contract) and are
used only for the claims whose examples need them. -/

/-- Modelled from the spec: the Sequence Adapter (§4.4, source `seq.rs` not
provided) driven by an arity-`n` binding-layer visitor (a fixed-size array or
tuple): it requests exactly `n` elements.  Before each element the adapter
peeks past whitespace; `]` signals no-more-elements without consuming it —
the binding layer then fails with an invalid-length custom error
(`CustomError`); if this is not the first element a leading `,` is required
(`ExpectedListCommaOrEnd` from the error taxonomy otherwise); then one value
decode is delegated. -/
def seqElements (elemDe : De → PRes α) : Nat → Bool → De → PRes (List α)
  | 0, _, s => .ok [] s
  | n + 1, first, s =>
    match parse_whitespace s with
    | (none, _) => .err .EofWhileParsingList
    | (some b, s) =>
      if b = 0x5D then .err .CustomError           -- early closing bracket: invalid_length
      else
        let step : PRes De :=
          if first then .ok s s
          else if b = 0x2C then .ok (eat_char s) (eat_char s)
          else .err .ExpectedListCommaOrEnd
        match step with
        | .ok s _ =>
          match elemDe s with
          | .ok v s =>
            match seqElements elemDe n false s with
            | .ok vs s => .ok (v :: vs) s
            | .err e => .err e
            | .rustPanic => .rustPanic
            | .outOfFuel => .outOfFuel
          | .err e => .err e
          | .rustPanic => .rustPanic
          | .outOfFuel => .outOfFuel
        | .err e => .err e
        | .rustPanic => .rustPanic
        | .outOfFuel => .outOfFuel

/-- The chomp loop of `deserialize_ignored_any` (`mod.rs` lines 611-619) on
the remaining bytes: consume bytes until a structural delimiter `,` `}` `]`
(left unconsumed); the end of input is `EofWhileParsingString` (line 617).
Returns how many bytes were consumed. -/
def chomp : List Nat → Except Error Nat
  | [] => .error .EofWhileParsingString
  | c :: rest =>
    if c = 0x2C ∨ c = 0x7D ∨ c = 0x5D then .ok 0
    else
      match chomp rest with
      | .ok k => .ok (k + 1)
      | .error e => .error e

mutual

/-- Model of `deserialize_ignored_any` (`mod.rs` lines 599-621): after whitespace, `"`
takes the normal string path, `[` the normal sequence path and `{` the normal
struct/map path (with an ignore-everything visitor); a bare `,` `}` `]` is
`ExpectedSomeValue`; any other byte starts the unvalidated chomp loop.  The
ignore-everything sequence/map visitors recurse through the adapters, which
are not in the provided sources; those two loops are modelled from the spec
(§4.4) and carry the fuel. -/
def ignoredAny : Nat → De → PRes Unit
  | 0, _ => .outOfFuel
  | fuel + 1, s =>
    match parse_whitespace s with
    | (none, _) => .err .EofWhileParsingValue
    | (some b, s) =>
      if b = 0x22 then                               -- opening quote
        match deserialize_str s with
        | .ok _ s => .ok () s
        | .err e => .err e
        | .rustPanic => .rustPanic
        | .outOfFuel => .outOfFuel
      else if b = 0x5B then                          -- opening bracket
        deserialize_seq (ignoredSeqLoop fuel true) s
      else if b = 0x7B then                          -- opening brace
        deserialize_map (ignoredMapLoop fuel true) s
      else if b = 0x2C ∨ b = 0x7D ∨ b = 0x5D then .err .ExpectedSomeValue
      else
        match chomp (s.slice.drop s.index) with
        | .ok k => .ok () { s with index := s.index + k }
        | .error e => .err e

/-- Modelled from the spec: the Sequence Adapter (§4.4, source `seq.rs` not
provided) driven by the ignore-everything visitor, which requests elements
until the adapter signals no-more-elements at `]`. -/
def ignoredSeqLoop : Nat → Bool → De → PRes Unit
  | 0, _, _ => .outOfFuel
  | fuel + 1, first, s =>
    match parse_whitespace s with
    | (none, _) => .err .EofWhileParsingList
    | (some b, s) =>
      if b = 0x5D then .ok () s                      -- closing bracket, not consumed
      else
        let step : PRes Unit :=
          if first then .ok () s
          else if b = 0x2C then .ok () (eat_char s)
          else .err .ExpectedListCommaOrEnd
        match step with
        | .ok _ s =>
          match ignoredAny fuel s with
          | .ok _ s => ignoredSeqLoop fuel false s
          | .err e => .err e
          | .rustPanic => .rustPanic
          | .outOfFuel => .outOfFuel
        | .err e => .err e
        | .rustPanic => .rustPanic
        | .outOfFuel => .outOfFuel

/-- Modelled from the spec: the Map Adapter (§4.4, source `map.rs` not
provided) driven by the ignore-everything visitor: entries until `}`; a key
must be a quoted string (`KeyMustBeAString`), followed by `:` (`ExpectedColon`
via `parse_object_colon`), followed by an ignored value. -/
def ignoredMapLoop : Nat → Bool → De → PRes Unit
  | 0, _, _ => .outOfFuel
  | fuel + 1, first, s =>
    match parse_whitespace s with
    | (none, _) => .err .EofWhileParsingObject
    | (some b, s) =>
      if b = 0x7D then .ok () s                      -- closing brace, not consumed
      else
        let step : PRes Unit :=
          if first then .ok () s
          else if b = 0x2C then .ok () (eat_char s)
          else .err .ExpectedObjectCommaOrEnd
        match step with
        | .ok _ s =>
          match parse_whitespace s with
          | (none, _) => .err .EofWhileParsingObject
          | (some k, s) =>
            if k = 0x22 then
              match deserialize_str s with           -- the key string
              | .ok _ s =>
                match parse_object_colon s with
                | .ok _ s =>
                  match ignoredAny fuel s with
                  | .ok _ s => ignoredMapLoop fuel false s
                  | .err e => .err e
                  | .rustPanic => .rustPanic
                  | .outOfFuel => .outOfFuel
                | .err e => .err e
                | .rustPanic => .rustPanic
                | .outOfFuel => .outOfFuel
              | .err e => .err e
              | .rustPanic => .rustPanic
              | .outOfFuel => .outOfFuel
            else .err .KeyMustBeAString
        | .err e => .err e
        | .rustPanic => .rustPanic
        | .outOfFuel => .outOfFuel

end

/-- The byte string `"temperature"`. -/
def temperatureKey : List Nat :=
  [0x74, 0x65, 0x6D, 0x70, 0x65, 0x72, 0x61, 0x74, 0x75, 0x72, 0x65]

/-- Modelled from the spec: the Map Adapter (§4.4) driven by the derived
binding-layer visitor of a struct with one `u8` field `temperature` (the known-field
extraction scenario of §8): each key names either the known field,
whose value is decoded as `u8`, or an unknown field, whose value goes through
`deserialize_ignored_any`. -/
def temperatureFields (fuel : Nat) : Bool → Option Nat → De → PRes (Option Nat) :=
  match fuel with
  | 0 => fun _ _ _ => .outOfFuel
  | fuel + 1 => fun first acc s =>
    match parse_whitespace s with
    | (none, _) => .err .EofWhileParsingObject
    | (some b, s) =>
      if b = 0x7D then .ok acc s                     -- closing brace, not consumed
      else
        let step : PRes Unit :=
          if first then .ok () s
          else if b = 0x2C then .ok () (eat_char s)
          else .err .ExpectedObjectCommaOrEnd
        match step with
        | .ok _ s =>
          match parse_whitespace s with
          | (none, _) => .err .EofWhileParsingObject
          | (some k, s) =>
            if k = 0x22 then
              match deserialize_str s with           -- the key string
              | .ok key s =>
                match parse_object_colon s with
                | .ok _ s =>
                  if key = temperatureKey then
                    match deserialize_unsigned 255 s with
                    | .ok v s => temperatureFields fuel false (some v) s
                    | .err e => .err e
                    | .rustPanic => .rustPanic
                    | .outOfFuel => .outOfFuel
                  else
                    match ignoredAny fuel s with
                    | .ok _ s => temperatureFields fuel false acc s
                    | .err e => .err e
                    | .rustPanic => .rustPanic
                    | .outOfFuel => .outOfFuel
                | .err e => .err e
                | .rustPanic => .rustPanic
                | .outOfFuel => .outOfFuel
              | .err e => .err e
              | .rustPanic => .rustPanic
              | .outOfFuel => .outOfFuel
            else .err .KeyMustBeAString
        | .err e => .err e
        | .rustPanic => .rustPanic
        | .outOfFuel => .outOfFuel

/-- Modelled from the spec: decode the one-field `temperature` struct (a
missing field at the end is the missing-field custom error of the binding layer).
`fuel` bounds the recursion of the modelled adapters; any value at least
`2 * bytes.length + 8` is sufficient. -/
def from_slice_temperature (fuel : Nat) (bytes : List Nat) : PRes Nat :=
  let visit : De → PRes Nat := fun s =>
    match temperatureFields fuel true none s with
    | .ok (some v) s => .ok v s
    | .ok none _ => .err .CustomError
    | .err e => .err e
    | .rustPanic => .rustPanic
    | .outOfFuel => .outOfFuel
  match deserialize_map visit { slice := bytes, index := 0 } with
  | .ok v s =>
    match de_end s with
    | .ok _ s => .ok v s
    | .err e => .err e
    | .rustPanic => .rustPanic
    | .outOfFuel => .outOfFuel
  | .err e => .err e
  | .rustPanic => .rustPanic
  | .outOfFuel => .outOfFuel

/-- Model of `from_slice` (`mod.rs` lines 691-700) specialised to a primitive decode
`de : De → PRes α`: run the decode from index 0, then `Deserializer::end`. -/
def from_slice (de : De → PRes α) (bytes : List Nat) : PRes α :=
  match de { slice := bytes, index := 0 } with
  | .ok v s =>
    match de_end s with
    | .ok _ s => .ok v s
    | .err e => .err e
    | .rustPanic => .rustPanic
    | .outOfFuel => .outOfFuel
  | .err e => .err e
  | .rustPanic => .rustPanic
  | .outOfFuel => .outOfFuel

/-! ## Helper predicates (decidable, for hypotheses) -/

/-- No byte of the list needs escaping: the string content is literal. -/
def literalContent (content : List Nat) : Bool :=
  content.all (fun b => b ≠ 0x5C && b ≠ 0x22)

/-- The first byte (if any) is not whitespace. -/
def headNotWs (l : List Nat) : Bool :=
  match l with
  | [] => true
  | b :: _ => !isWs b

/-- The first byte (if any) is not an ASCII digit. -/
def headNotDigit (l : List Nat) : Bool :=
  match l with
  | [] => true
  | b :: _ => !isDigit b

/-- The value of a digit string under the accumulation step of the source (`number
* 10 + (c - b'0')`), starting from `n`. -/
def digitsVal (n : Nat) (ds : List Nat) : Nat :=
  ds.foldl (fun a b => a * 10 + (b - 0x30)) n

/-- The signed accumulation value (`mod.rs` line 285): each digit contributes
`±(c - b'0')` according to the recorded sign. -/
def digitsValS (signed : Bool) (n : Int) (ds : List Nat) : Int :=
  ds.foldl (fun a b => a * 10 + (b - 0x30 : Nat) * (if signed then -1 else 1)) n

/-! ## C4 and C5: container terminator checks -/

/-- The bytes of `[0, 1, 2]`. -/
def arrayBytes012 : List Nat := [0x5B, 0x30, 0x2C, 0x20, 0x31, 0x2C, 0x20, 0x32, 0x5D]

/-- The bytes of `[0, 1,]`. -/
def arrayBytesTrailingComma : List Nat := [0x5B, 0x30, 0x2C, 0x20, 0x31, 0x2C, 0x5D]

/-- The bytes of `[0 1]`. -/
def arrayBytesMissingComma : List Nat := [0x5B, 0x30, 0x20, 0x31, 0x5D]

/-- The `i32` decode used in the array examples of the spec. -/
def i32de : De → PRes Int := deserialize_signed (-2147483648) 2147483647

/-- The bytes of the known-field extraction example of the spec
`\x7b"temperature": 20, "unused": [1,2,\x7b"a":"b"\x7d]\x7d`. -/
def c8Bytes1 : List Nat := [0x7B, 0x22, 0x74, 0x65, 0x6D, 0x70, 0x65, 0x72, 0x61, 0x74, 0x75, 0x72, 0x65, 0x22, 0x3A, 0x20, 0x32, 0x30, 0x2C, 0x20, 0x22, 0x75, 0x6E, 0x75, 0x73, 0x65, 0x64, 0x22, 0x3A, 0x20, 0x5B, 0x31, 0x2C, 0x32, 0x2C, 0x7B, 0x22, 0x61, 0x22, 0x3A, 0x22, 0x62, 0x22, 0x7D, 0x5D, 0x7D]

def c8S1 : List Nat := [0x22, 0x3A, 0x20, 0x32, 0x30, 0x2C, 0x20, 0x22, 0x75, 0x6E, 0x75, 0x73, 0x65, 0x64, 0x22, 0x3A, 0x20, 0x5B, 0x31, 0x2C, 0x32, 0x2C, 0x7B, 0x22, 0x61, 0x22, 0x3A, 0x22, 0x62, 0x22, 0x7D, 0x5D, 0x7D]

def c8S2 : List Nat := [0x22, 0x3A, 0x20, 0x5B, 0x31, 0x2C, 0x32, 0x2C, 0x7B, 0x22, 0x61, 0x22, 0x3A, 0x22, 0x62, 0x22, 0x7D, 0x5D, 0x7D]

def c8S3 : List Nat := [0x22, 0x3A, 0x22, 0x62, 0x22, 0x7D, 0x5D, 0x7D]

def c8S4 : List Nat := [0x22, 0x7D, 0x5D, 0x7D]

/-- The bytes of `\x7b "temperature": 20, "invalid": this-is-ignored \x7d`. -/
def c8Bytes2 : List Nat := [0x7B, 0x20, 0x22, 0x74, 0x65, 0x6D, 0x70, 0x65, 0x72, 0x61, 0x74, 0x75, 0x72, 0x65, 0x22, 0x3A, 0x20, 0x32, 0x30, 0x2C, 0x20, 0x22, 0x69, 0x6E, 0x76, 0x61, 0x6C, 0x69, 0x64, 0x22, 0x3A, 0x20, 0x74, 0x68, 0x69, 0x73, 0x2D, 0x69, 0x73, 0x2D, 0x69, 0x67, 0x6E, 0x6F, 0x72, 0x65, 0x64, 0x20, 0x7D]

def c8T1 : List Nat := [0x22, 0x3A, 0x20, 0x32, 0x30, 0x2C, 0x20, 0x22, 0x69, 0x6E, 0x76, 0x61, 0x6C, 0x69, 0x64, 0x22, 0x3A, 0x20, 0x74, 0x68, 0x69, 0x73, 0x2D, 0x69, 0x73, 0x2D, 0x69, 0x67, 0x6E, 0x6F, 0x72, 0x65, 0x64, 0x20, 0x7D]

def c8T2 : List Nat := [0x22, 0x3A, 0x20, 0x74, 0x68, 0x69, 0x73, 0x2D, 0x69, 0x73, 0x2D, 0x69, 0x67, 0x6E, 0x6F, 0x72, 0x65, 0x64, 0x20, 0x7D]

/-! ## Theorems -/

/-! ## General-purpose lemmas -/

theorem drop_index_add (l : List Nat) (i k : Nat) :
    l.drop (i + k) = (l.drop i).drop k := by
  rw [List.drop_drop, Nat.add_comm]

theorem getD_append_len (l t : List Nat) (a d : Nat) :
    (l ++ a :: t).getD l.length d = a := by
  induction l with
  | nil => rfl
  | cons x xs ih => simpa using ih

theorem set_append_len (l t : List Nat) (a b : Nat) :
    (l ++ a :: t).set l.length b = l ++ b :: t := by
  induction l with
  | nil => rfl
  | cons x xs ih => simpa using ih

theorem skipWs_append (ws rest : List Nat) (hws : ws.all isWs = true)
    (hrest : headNotWs rest = true) : skipWs (ws ++ rest) = ws.length := by
  induction ws with
  | nil =>
    cases rest with
    | nil => rfl
    | cons b t =>
      simp only [headNotWs, Bool.not_eq_true'] at hrest
      simp [skipWs, hrest]
  | cons b t ih =>
    simp only [List.all_cons, Bool.and_eq_true] at hws
    simp [skipWs, hws.1, ih hws.2]

theorem peek_eq_head_drop (s : De) : peek s = (s.slice.drop s.index).head? := by
  rw [peek, ← List.get?_zero, List.get?_drop, Nat.add_zero]

/-- Behaviour of `parse_whitespace` on a state whose remaining bytes are a run
of whitespace followed by `rest`. -/
theorem parse_whitespace_spec (s : De) (ws rest : List Nat)
    (h : s.slice.drop s.index = ws ++ rest)
    (hws : ws.all isWs = true) (hrest : headNotWs rest = true) :
    parse_whitespace s = (rest.head?, { s with index := s.index + ws.length }) ∧
    s.slice.drop (s.index + ws.length) = rest := by
  have hdrop : s.slice.drop (s.index + ws.length) = rest := by
    rw [drop_index_add, h, List.drop_left]
  constructor
  · simp only [parse_whitespace, h, skipWs_append ws rest hws hrest]
    rw [peek_eq_head_drop]
    simp [hdrop]
  · exact hdrop

/-! ## C2: write index never exceeds read index in the unescaper -/

theorem utf8EncodeChar_length_le (cp : Nat) : (utf8EncodeChar cp).length ≤ 4 := by
  unfold utf8EncodeChar
  split_ifs <;> simp

theorem unescapeLoop_ok_bounds :
    ∀ fuel buffer w r buf w' r', w ≤ r →
      unescapeLoop fuel buffer w r = .ok buf w' r' → w ≤ w' ∧ w' + 1 ≤ r' := by
  intro fuel
  induction fuel with
  | zero =>
    intro buffer w r buf w' r' _ heq
    simp [unescapeLoop] at heq
  | succ fuel ih =>
    intro buffer w r buf w' r' hwr heq
    simp only [unescapeLoop] at heq
    repeat' split at heq
    all_goals try exact URes.noConfusion heq
    · -- backslash, slash or quote escape
      have := ih _ _ _ _ _ _ (by omega) heq
      omega
    · -- unicode escape
      rename_i cp hcp hvalid hroom
      have hlen := utf8EncodeChar_length_le cp
      have := ih _ _ _ _ _ _ (by omega) heq
      omega
    · -- terminating quote
      rcases heq with ⟨rfl, rfl, rfl⟩
      omega
    · -- plain byte copy
      have := ih _ _ _ _ _ _ (by omega) heq
      omega

/-- The fuel artifact is unreachable: with fuel at least
`buffer.length + 1 - r` (and positive), the loop never runs out, because every
iteration advances the read cursor and the cursor is bounded by the buffer
length. -/
theorem overwriteAt_length (buffer : List Nat) (w : Nat) (bytes : List Nat)
    (h : w + bytes.length ≤ buffer.length) :
    (overwriteAt buffer w bytes).length = buffer.length := by
  simp [overwriteAt]
  omega

theorem unescapeLoop_no_fuelOut :
    ∀ fuel buffer w r, buffer.length + 1 ≤ fuel + r → 1 ≤ fuel →
      unescapeLoop fuel buffer w r ≠ .fuelOut := by
  intro fuel
  induction fuel with
  | zero => intro buffer w r _ h1; omega
  | succ fuel ih =>
    intro buffer w r hlen _ heq
    simp only [unescapeLoop] at heq
    repeat' split at heq
    all_goals try exact URes.noConfusion heq
    · -- backslash, slash or quote escape
      rename_i h1 h2 h3 h4 h5
      refine ih _ _ _ ?_ ?_ heq
      · simp only [List.length_set]; omega
      · omega
    · -- unicode escape
      rename_i h1 h2 h3 h4 h5 h6 cp hcp h7 h8
      have := overwriteAt_length buffer w (utf8EncodeChar cp) h8
      refine ih _ _ _ ?_ ?_ heq
      · omega
      · omega
    · -- plain byte copy
      rename_i h1 h2 h3 h4
      refine ih _ _ _ ?_ ?_ heq
      · simp only [List.length_set]; omega
      · omega

/-- The public unescaper entry never returns the fuel artifact. -/
theorem unescape_string_to_termination_no_fuelOut (buffer : List Nat) :
    unescape_string_to_termination buffer ≠ .fuelOut :=
  unescapeLoop_no_fuelOut (buffer.length + 1) buffer 0 0 (by omega) (by omega)

/-- C2: throughout every run of the in-place unescaper the write index never
exceeds the read index (the loop invariant `w ≤ r` is preserved and every
successful exit has `w' < r'`), and on every successful return of
`unescape_string_to_termination` the reported `unescaped_length` is at most
`bytes_consumed_including_quote - 1`, so the in-place compaction never
overwrites a byte that has not yet been read. -/
theorem c2_write_never_exceeds_read :
    (∀ fuel buffer w r buf w' r', w ≤ r →
        unescapeLoop fuel buffer w r = .ok buf w' r' → w ≤ w' ∧ w' + 1 ≤ r') ∧
    (∀ buffer buf w' r',
        unescape_string_to_termination buffer = .ok buf w' r' → w' + 1 ≤ r') :=
  ⟨unescapeLoop_ok_bounds,
   fun buffer buf w' r' h =>
     (unescapeLoop_ok_bounds (buffer.length + 1) buffer 0 0 buf w' r'
       (Nat.le_refl 0) h).2⟩

theorem c2_witness :
    unescape_string_to_termination [0x41, 0x22] = .ok [0x41, 0x22] 1 2 ∧ 1 + 1 ≤ 2 :=
  ⟨by decide,
   c2_write_never_exceeds_read.2 [0x41, 0x22] [0x41, 0x22] 1 2 (by decide)⟩

/-- C1: (code bug) a `\u` escape whose 4 hex digits denote a surrogate code
point makes the char-construction `unwrap` on `string_unescaper.rs` line 37
panic — `\uD800` aborts instead of being encoded — while any non-surrogate 4
hex digits are encoded as claimed: `￿` yields the 3-byte UTF-8 encoding
`EF BF BF` with read advanced by 6 (plus 1 for the terminating quote) and
write advanced by 3, and `A` yields `A` with write advanced by 1. -/
theorem c1_surrogate_escape_panics :
    unescape_string_to_termination [0x5C, 0x75, 0x44, 0x38, 0x30, 0x30, 0x22] = .rustPanic ∧
    unescape_string_to_termination [0x5C, 0x75, 0x46, 0x46, 0x46, 0x46, 0x22] =
      .ok [0xEF, 0xBF, 0xBF, 0x46, 0x46, 0x46, 0x22] 3 7 ∧
    unescape_string_to_termination [0x5C, 0x75, 0x30, 0x30, 0x34, 0x31, 0x22] =
      .ok [0x41, 0x75, 0x30, 0x30, 0x34, 0x31, 0x22] 1 7 := by
  refine ⟨by decide, by decide, by decide⟩

/-! ## C9: literal strings are copied unchanged -/

theorem unescapeLoop_literal_copy :
    ∀ (content done rest : List Nat) (fuel : Nat),
      content.length + 1 ≤ fuel → literalContent content = true →
      unescapeLoop fuel (done ++ content ++ 0x22 :: rest) done.length done.length =
        .ok (done ++ content ++ 0x22 :: rest)
          (done.length + content.length) (done.length + content.length + 1) := by
  intro content
  induction content with
  | nil =>
    intro done rest fuel hfuel _
    obtain ⟨fuel, rfl⟩ : ∃ f, fuel = f + 1 := ⟨fuel - 1, by omega⟩
    have hB : done ++ ([] : List Nat) ++ 0x22 :: rest = done ++ 0x22 :: rest := by simp
    rw [unescapeLoop, hB]
    rw [if_neg (by simp)]
    rw [getD_append_len]
    norm_num
  | cons b content ih =>
    intro done rest fuel hfuel hlit
    simp only [literalContent, List.all_cons, Bool.and_eq_true, decide_eq_true_eq] at hlit
    obtain ⟨⟨hb1, hb2⟩, hlit⟩ := hlit
    obtain ⟨fuel, rfl⟩ : ∃ f, fuel = f + 1 := ⟨fuel - 1, by omega⟩
    have hB : done ++ (b :: content) ++ 0x22 :: rest
        = done ++ b :: (content ++ 0x22 :: rest) := by simp
    rw [unescapeLoop, hB]
    rw [if_neg (by simp)]
    rw [getD_append_len]
    rw [if_neg hb1, if_neg hb2]
    rw [if_pos (by simp)]
    rw [set_append_len]
    have hrec := ih (done ++ [b]) rest fuel (by simp at hfuel ⊢; omega)
      (by simpa [literalContent] using hlit)
    simp only [List.append_assoc, List.singleton_append, List.length_append,
      List.length_singleton] at hrec
    convert hrec using 2 <;> simp <;> omega

/-- C9 (counterexample): for the literal one-byte content `A` (buffer `A"`,
positioned after the opening quote) the unescaper returns content length 1
and consumed length 2 — the consumed length is the content length plus 1
(the terminating quote), not plus 2 as the claim states. -/
theorem c9_counterexample :
    unescape_string_to_termination [0x41, 0x22] = .ok [0x41, 0x22] 1 2 ∧
    (2 : Nat) ≠ 1 + 2 := by
  refine ⟨by decide, by decide⟩

/-- C9 (amended): for every string whose content contains only literal
characters (no backslash, no quote), unescaping returns the identical content
(the buffer is unchanged and its first `content.length` bytes are the
content) and a consumed length equal to the content length plus 1 — the
terminating quote; the opening quote was consumed by the caller before the
unescaper runs, so the whole string token occupies content length plus 2
bytes of the original input. -/
theorem c9_literal_roundtrip (content rest : List Nat)
    (h : literalContent content = true) :
    unescape_string_to_termination (content ++ 0x22 :: rest) =
      .ok (content ++ 0x22 :: rest) content.length (content.length + 1) ∧
    (content ++ 0x22 :: rest).take content.length = content := by
  constructor
  · have hmain := unescapeLoop_literal_copy content [] rest
      ((content ++ 0x22 :: rest).length + 1) (by simp) h
    simpa [unescape_string_to_termination] using hmain
  · exact List.take_left content _

theorem c9_witness :
    literalContent [0x68, 0x69] = true ∧
    unescape_string_to_termination [0x68, 0x69, 0x22, 0x20] =
      .ok [0x68, 0x69, 0x22, 0x20] 2 3 := by
  refine ⟨by decide, ?_⟩
  have h := (c9_literal_roundtrip [0x68, 0x69] [0x20] (by decide)).1
  simpa using h

/-- C4: after the last element of a sequence `end_seq` consumes a significant `]`
and succeeds; a `,` followed by whitespace-then-`]` is `TrailingComma` and a
`,` followed by anything else (or the end of input) is `TrailingCharacters`;
any other byte is `TrailingCharacters`; end of input is `EofWhileParsingList`.
Consequently (through the arity-driven sequence adapter) `[0, 1, 2]` decodes
as a 3-element array, `[0, 1,]` fails with `TrailingComma` after two
elements, `[0 1]` fails with `TrailingCharacters` after one element, and `[`
alone fails with `EofWhileParsingList`. -/
theorem c4_seq_terminator :
    (∀ s s', parse_whitespace s = (none, s') → end_seq s = .err .EofWhileParsingList) ∧
    (∀ s s', parse_whitespace s = (some 0x5D, s') → end_seq s = .ok () (eat_char s')) ∧
    (∀ s s' b2 s'', parse_whitespace s = (some 0x2C, s') →
        parse_whitespace (eat_char s') = (some b2, s'') →
        end_seq s = if b2 = 0x5D then .err .TrailingComma else .err .TrailingCharacters) ∧
    (∀ s s' s'', parse_whitespace s = (some 0x2C, s') →
        parse_whitespace (eat_char s') = (none, s'') →
        end_seq s = .err .TrailingCharacters) ∧
    (∀ s b s', parse_whitespace s = (some b, s') → b ≠ 0x5D → b ≠ 0x2C →
        end_seq s = .err .TrailingCharacters) ∧
    from_slice (deserialize_seq (seqElements i32de 3 true)) arrayBytes012 =
      .ok [0, 1, 2] { slice := arrayBytes012, index := 9 } ∧
    from_slice (deserialize_seq (seqElements i32de 2 true)) arrayBytesTrailingComma =
      .err .TrailingComma ∧
    from_slice (deserialize_seq (seqElements i32de 1 true)) arrayBytesMissingComma =
      .err .TrailingCharacters ∧
    from_slice (deserialize_seq (seqElements i32de 0 true)) [0x5B] =
      .err .EofWhileParsingList := by
  refine ⟨?_, ?_, ?_, ?_, ?_, by decide, by decide, by decide, by decide⟩
  · intro s s' h; simp [end_seq, h]
  · intro s s' h; simp [end_seq, h]
  · intro s s' b2 s'' h h2
    simp only [end_seq, h]
    norm_num
    rw [h2]
  · intro s s' s'' h h2
    simp only [end_seq, h]
    norm_num
    rw [h2]
  · intro s b s' h hb1 hb2; simp [end_seq, h, hb1, hb2]

theorem c4_witness :
    parse_whitespace { slice := [0x20, 0x2C, 0x5D], index := 0 } =
      (some 0x2C, { slice := [0x20, 0x2C, 0x5D], index := 1 }) ∧
    end_seq { slice := [0x20, 0x2C, 0x5D], index := 0 } = .err .TrailingComma := by
  refine ⟨by decide, ?_⟩
  have h := c4_seq_terminator.2.2.1 { slice := [0x20, 0x2C, 0x5D], index := 0 }
    { slice := [0x20, 0x2C, 0x5D], index := 1 } 0x5D
    { slice := [0x20, 0x2C, 0x5D], index := 2 } (by decide) (by decide)
  simpa using h

/-- C5: after the last entry of a map `end_map` consumes a significant `}` and
succeeds; a `,` is immediately `TrailingComma` without looking at what
follows (asymmetric with sequences); any other byte is `TrailingCharacters`;
end of input is `EofWhileParsingObject`. -/
theorem c5_map_terminator :
    (∀ s s', parse_whitespace s = (none, s') → end_map s = .err .EofWhileParsingObject) ∧
    (∀ s s', parse_whitespace s = (some 0x7D, s') → end_map s = .ok () (eat_char s')) ∧
    (∀ s s', parse_whitespace s = (some 0x2C, s') → end_map s = .err .TrailingComma) ∧
    (∀ s b s', parse_whitespace s = (some b, s') → b ≠ 0x7D → b ≠ 0x2C →
        end_map s = .err .TrailingCharacters) := by
  refine ⟨?_, ?_, ?_, ?_⟩
  · intro s s' h; simp [end_map, h]
  · intro s s' h; simp [end_map, h]
  · intro s s' h; simp [end_map, h]
  · intro s b s' h hb1 hb2; simp [end_map, h, hb1, hb2]

theorem c5_witness :
    end_map { slice := [0x2C, 0x20, 0x7D], index := 0 } = .err .TrailingComma :=
  c5_map_terminator.2.2.1 { slice := [0x2C, 0x20, 0x7D], index := 0 }
    { slice := [0x2C, 0x20, 0x7D], index := 0 } (by decide)

/-! ## C10: sequence dispatch does not skip leading whitespace -/

/-- C10: `deserialize_seq` (and with it tuples and tuple structs, which
delegate to it) inspects the next unconsumed byte without skipping
whitespace: whenever that byte is a space, newline, tab or carriage return it
returns `InvalidType`, even if a well-formed array follows — while
`deserialize_map` skips whitespace before checking for `{`, so ` {}` decodes
but ` []` does not. -/
theorem c10_seq_whitespace_invalid_type :
    (∀ (α : Type) (visit : De → PRes α) s b, peek s = some b → isWs b = true →
        deserialize_seq visit s = .err .InvalidType) ∧
    (∀ (α : Type) (visit : De → PRes α) s, deserialize_tuple visit s = deserialize_seq visit s) ∧
    (∀ (α : Type) (visit : De → PRes α) s,
        deserialize_tuple_struct visit s = deserialize_seq visit s) ∧
    deserialize_seq (fun s => .ok (0 : Nat) s) { slice := [0x20, 0x5B, 0x5D], index := 0 } =
      .err .InvalidType ∧
    deserialize_seq (fun s => .ok (0 : Nat) s) { slice := [0x5B, 0x5D], index := 0 } =
      .ok 0 { slice := [0x5B, 0x5D], index := 2 } ∧
    deserialize_map (fun s => .ok (0 : Nat) s) { slice := [0x20, 0x7B, 0x7D], index := 0 } =
      .ok 0 { slice := [0x20, 0x7B, 0x7D], index := 3 } := by
  refine ⟨?_, fun _ _ _ => rfl, fun _ _ _ => rfl, by decide, by decide, by decide⟩
  intro α visit s b hpeek hws
  simp only [isWs, Bool.or_eq_true, decide_eq_true_eq] at hws
  rcases hws with ((rfl | rfl) | rfl) | rfl <;> simp [deserialize_seq, hpeek]

theorem c10_witness :
    peek { slice := [0x20, 0x5B, 0x5D], index := 0 } = some 0x20 ∧
    deserialize_seq (fun s => .ok (1 : Nat) s) { slice := [0x20, 0x5B, 0x5D], index := 0 } =
      .err .InvalidType :=
  ⟨by decide,
   c10_seq_whitespace_invalid_type.1 Nat (fun s => .ok 1 s)
     { slice := [0x20, 0x5B, 0x5D], index := 0 } 0x20 (by decide) (by decide)⟩

/-! ## C6 and C7: overflow-checked numeric parsing -/

theorem parse_whitespace_peek (s : De) (ob : Option Nat) (s' : De)
    (h : parse_whitespace s = (ob, s')) : peek s' = ob := by
  simp only [parse_whitespace, Prod.mk.injEq] at h
  obtain ⟨h1, h2⟩ := h
  rw [← h2]
  exact h1

theorem digitsVal_mono (ds : List Nat) : ∀ n : Nat, n ≤ digitsVal n ds := by
  induction ds with
  | nil => intro n; simp [digitsVal]
  | cons d ds ih =>
    intro n
    have h1 : n ≤ n * 10 + (d - 0x30) := by omega
    have h2 := ih (n * 10 + (d - 0x30))
    simp only [digitsVal, List.foldl_cons] at h2 ⊢
    omega

theorem digitLoopU_spec (MAX : Nat) :
    ∀ (ds rest : List Nat) (n : Nat), n ≤ MAX →
      ds.all isDigit = true → headNotDigit rest = true →
      digitLoopU MAX n (ds ++ rest) =
        if digitsVal n ds ≤ MAX then .ok (digitsVal n ds, ds.length)
        else .error .InvalidNumber := by
  intro ds
  induction ds with
  | nil =>
    intro rest n hn _ hrest
    cases rest with
    | nil => simp [digitLoopU, digitsVal, hn]
    | cons b t =>
      simp only [headNotDigit, Bool.not_eq_true'] at hrest
      simp [digitLoopU, hrest, digitsVal, hn]
  | cons d ds ih =>
    intro rest n hn hds hrest
    simp only [List.all_cons, Bool.and_eq_true] at hds
    obtain ⟨hd, hds⟩ := hds
    have hstep : digitsVal n (d :: ds) = digitsVal (n * 10 + (d - 0x30)) ds := by
      simp [digitsVal]
    by_cases hcase : n * 10 + (d - 0x30) ≤ MAX
    · have hrec := ih rest (n * 10 + (d - 0x30)) hcase hds hrest
      by_cases h2 : digitsVal (n * 10 + (d - 0x30)) ds ≤ MAX
      · rw [if_pos h2] at hrec
        simp [digitLoopU, hd, show n * 10 ≤ MAX by omega, hcase, hrec, hstep, h2]
      · rw [if_neg h2] at hrec
        have hgt : ¬ digitsVal n (d :: ds) ≤ MAX := by rw [hstep]; exact h2
        simp [digitLoopU, hd, show n * 10 ≤ MAX by omega, hcase, hrec, hstep, h2]
    · have hgt : ¬ digitsVal n (d :: ds) ≤ MAX := by
        have := digitsVal_mono ds (n * 10 + (d - 0x30))
        rw [hstep]; omega
      by_cases h3 : n * 10 ≤ MAX <;> simp [digitLoopU, hd, h3, hcase, hgt]

/-- C6: for every unsigned-integer decode with target maximum `MAX ≥ 9`:
after whitespace a leading `-` yields `InvalidNumber`; a leading `0` yields
zero immediately with only the `0` consumed (so `01` parses as `0` leaving
`1` to the caller); a leading `1`-`9` accumulates digit by digit with checked
multiply-by-10 and checked add, yielding the value of the numeral when it fits in
`MAX` and `InvalidNumber` on any overflow, never a truncated value; and the
first non-digit byte (or end of input) ends the number and is left
unconsumed. -/
theorem c6_unsigned_decode :
    (∀ MAX s s', parse_whitespace s = (some 0x2D, s') →
        deserialize_unsigned MAX s = .err .InvalidNumber) ∧
    (∀ MAX s s', parse_whitespace s = (some 0x30, s') →
        deserialize_unsigned MAX s = .ok 0 (eat_char s')) ∧
    (∀ MAX d ds rest s s', parse_whitespace s = (some d, s') →
        0x31 ≤ d → d ≤ 0x39 → 9 ≤ MAX →
        s'.slice.drop (s'.index + 1) = ds ++ rest →
        ds.all isDigit = true → headNotDigit rest = true →
        deserialize_unsigned MAX s =
          if digitsVal (d - 0x30) ds ≤ MAX then
            .ok (digitsVal (d - 0x30) ds) { slice := s'.slice, index := s'.index + 1 + ds.length }
          else .err .InvalidNumber) := by
  refine ⟨?_, ?_, ?_⟩
  · intro MAX s s' h; simp [deserialize_unsigned, h]
  · intro MAX s s' h; simp [deserialize_unsigned, h]
  · intro MAX d ds rest s s' h hd1 hd2 hMAX hdrop hds hrest
    have hloop := digitLoopU_spec MAX ds rest (d - 0x30) (by omega) hds hrest
    by_cases hok : digitsVal (d - 0x30) ds ≤ MAX
    · rw [if_pos hok] at hloop
      simp only [deserialize_unsigned, h]
      rw [if_neg (by omega), if_neg (by omega), if_pos (by omega)]
      simp [eat_char, hdrop, hloop, hok]
    · rw [if_neg hok] at hloop
      simp only [deserialize_unsigned, h]
      rw [if_neg (by omega), if_neg (by omega), if_pos (by omega)]
      simp [eat_char, hdrop, hloop, hok]

theorem c6_witness :
    deserialize_unsigned 255 { slice := [0x2D, 0x31], index := 0 } = .err .InvalidNumber ∧
    deserialize_unsigned 255 { slice := [0x30, 0x31], index := 0 } =
      .ok 0 { slice := [0x30, 0x31], index := 1 } ∧
    deserialize_unsigned 255 { slice := [0x32, 0x35, 0x36], index := 0 } =
      .err .InvalidNumber ∧
    deserialize_unsigned 255 { slice := [0x32, 0x35, 0x35, 0x20], index := 0 } =
      .ok 255 { slice := [0x32, 0x35, 0x35, 0x20], index := 3 } := by
  refine ⟨c6_unsigned_decode.1 255 { slice := [0x2D, 0x31], index := 0 }
    { slice := [0x2D, 0x31], index := 0 } (by decide), ?_, ?_, ?_⟩
  · have h := c6_unsigned_decode.2.1 255 { slice := [0x30, 0x31], index := 0 }
      { slice := [0x30, 0x31], index := 0 } (by decide)
    simpa [eat_char] using h
  · have h := c6_unsigned_decode.2.2 255 0x32 [0x35, 0x36] []
      { slice := [0x32, 0x35, 0x36], index := 0 } { slice := [0x32, 0x35, 0x36], index := 0 }
      (by decide) (by decide) (by decide) (by decide) (by decide) (by decide) (by decide)
    simpa [digitsVal] using h
  · have h := c6_unsigned_decode.2.2 255 0x32 [0x35, 0x35] [0x20]
      { slice := [0x32, 0x35, 0x35, 0x20], index := 0 }
      { slice := [0x32, 0x35, 0x35, 0x20], index := 0 }
      (by decide) (by decide) (by decide) (by decide) (by decide) (by decide) (by decide)
    simpa [digitsVal] using h

theorem digitsValS_unfold_pos (n : Int) (d : Nat) (ds : List Nat) :
    digitsValS false n (d :: ds) = digitsValS false (n * 10 + (d - 0x30 : Nat)) ds := by
  simp [digitsValS]

theorem digitsValS_unfold_neg (n : Int) (d : Nat) (ds : List Nat) :
    digitsValS true n (d :: ds) = digitsValS true (n * 10 - (d - 0x30 : Nat)) ds := by
  simp [digitsValS, mul_neg_one, ← sub_eq_add_neg]

theorem digitsValS_mono_pos (ds : List Nat) :
    ∀ n : Int, 0 ≤ n → n ≤ digitsValS false n ds ∧ 0 ≤ digitsValS false n ds := by
  induction ds with
  | nil =>
    intro n hn
    exact ⟨le_of_eq (by simp [digitsValS]), by simpa [digitsValS] using hn⟩
  | cons d ds ih =>
    intro n hn
    have hd0 : (0 : Int) ≤ ((d - 0x30 : Nat) : Int) := Int.natCast_nonneg _
    have hle : n ≤ n * 10 + ((d - 0x30 : Nat) : Int) := by nlinarith
    have hstep : (0 : Int) ≤ n * 10 + ((d - 0x30 : Nat) : Int) := by nlinarith
    obtain ⟨ih1, ih2⟩ := ih _ hstep
    rw [digitsValS_unfold_pos]
    exact ⟨le_trans hle ih1, ih2⟩

theorem digitsValS_mono_neg (ds : List Nat) :
    ∀ n : Int, n ≤ 0 → digitsValS true n ds ≤ n ∧ digitsValS true n ds ≤ 0 := by
  induction ds with
  | nil =>
    intro n hn
    exact ⟨le_of_eq (by simp [digitsValS]), by simpa [digitsValS] using hn⟩
  | cons d ds ih =>
    intro n hn
    have hd0 : (0 : Int) ≤ ((d - 0x30 : Nat) : Int) := Int.natCast_nonneg _
    have hle : n * 10 - ((d - 0x30 : Nat) : Int) ≤ n := by nlinarith
    have hstep : n * 10 - ((d - 0x30 : Nat) : Int) ≤ 0 := by nlinarith
    obtain ⟨ih1, ih2⟩ := ih _ hstep
    rw [digitsValS_unfold_neg]
    exact ⟨le_trans ih1 hle, ih2⟩

theorem digitLoopS_spec_pos (MIN MAX : Int) (hMIN : MIN ≤ 0) :
    ∀ (ds rest : List Nat) (n : Int), 0 ≤ n → n ≤ MAX →
      ds.all isDigit = true → headNotDigit rest = true →
      digitLoopS MIN MAX false n (ds ++ rest) =
        if digitsValS false n ds ≤ MAX then .ok (digitsValS false n ds, ds.length)
        else .error .InvalidNumber := by
  intro ds
  induction ds with
  | nil =>
    intro rest n hn0 hn _ hrest
    cases rest with
    | nil => simp [digitLoopS, digitsValS, hn]
    | cons b t =>
      simp only [headNotDigit, Bool.not_eq_true'] at hrest
      simp [digitLoopS, hrest, digitsValS, hn]
  | cons d ds ih =>
    intro rest n hn0 hn hds hrest
    simp only [List.all_cons, Bool.and_eq_true] at hds
    obtain ⟨hd, hds⟩ := hds
    have hd0 : (0 : Int) ≤ ((d - 0x30 : Nat) : Int) := Int.natCast_nonneg _
    have hstep : digitsValS false n (d :: ds)
        = digitsValS false (n * 10 + ((d - 0x30 : Nat) : Int)) ds :=
      digitsValS_unfold_pos n d ds
    by_cases hcase : n * 10 + ((d - 0x30 : Nat) : Int) ≤ MAX
    · have hrec := ih rest (n * 10 + ((d - 0x30 : Nat) : Int)) (by nlinarith) hcase hds hrest
      by_cases h2 : digitsValS false (n * 10 + ((d - 0x30 : Nat) : Int)) ds ≤ MAX
      · rw [if_pos h2] at hrec
        simp [digitLoopS, hd, hrec, hstep, h2, hcase,
          show MIN ≤ n * 10 by nlinarith, show n * 10 ≤ MAX by nlinarith,
          show MIN ≤ n * 10 + ((d - 0x30 : Nat) : Int) by nlinarith]
      · rw [if_neg h2] at hrec
        simp [digitLoopS, hd, hrec, hstep, h2, hcase,
          show MIN ≤ n * 10 by nlinarith, show n * 10 ≤ MAX by nlinarith,
          show MIN ≤ n * 10 + ((d - 0x30 : Nat) : Int) by nlinarith]
    · have hmono := digitsValS_mono_pos ds (n * 10 + ((d - 0x30 : Nat) : Int)) (by nlinarith)
      have hgt : ¬ digitsValS false n (d :: ds) ≤ MAX := by
        rw [hstep]; omega
      by_cases h3 : n * 10 ≤ MAX
      · simp [digitLoopS, hd, hgt, h3, show MIN ≤ n * 10 by nlinarith, hcase]
      · simp [digitLoopS, hd, hgt, h3, hcase]

theorem digitLoopS_spec_neg (MIN MAX : Int) (hMAX : 0 ≤ MAX) :
    ∀ (ds rest : List Nat) (n : Int), n ≤ 0 → MIN ≤ n →
      ds.all isDigit = true → headNotDigit rest = true →
      digitLoopS MIN MAX true n (ds ++ rest) =
        if MIN ≤ digitsValS true n ds then .ok (digitsValS true n ds, ds.length)
        else .error .InvalidNumber := by
  intro ds
  induction ds with
  | nil =>
    intro rest n hn0 hn _ hrest
    cases rest with
    | nil => simp [digitLoopS, digitsValS, hn]
    | cons b t =>
      simp only [headNotDigit, Bool.not_eq_true'] at hrest
      simp [digitLoopS, hrest, digitsValS, hn]
  | cons d ds ih =>
    intro rest n hn0 hn hds hrest
    simp only [List.all_cons, Bool.and_eq_true] at hds
    obtain ⟨hd, hds⟩ := hds
    have hd0 : (0 : Int) ≤ ((d - 0x30 : Nat) : Int) := Int.natCast_nonneg _
    have hstep : digitsValS true n (d :: ds)
        = digitsValS true (n * 10 - ((d - 0x30 : Nat) : Int)) ds :=
      digitsValS_unfold_neg n d ds
    have harith : n * 10 + ((d - 0x30 : Nat) : Int) * (-1)
        = n * 10 - ((d - 0x30 : Nat) : Int) := by ring
    by_cases hcase : MIN ≤ n * 10 - ((d - 0x30 : Nat) : Int)
    · have hrec := ih rest (n * 10 - ((d - 0x30 : Nat) : Int)) (by nlinarith) hcase hds hrest
      have hc1 : MIN + ((d - 0x30 : Nat) : Int) ≤ n * 10 := by omega
      have hc2 : n * 10 ≤ MAX + ((d - 0x30 : Nat) : Int) := by nlinarith
      by_cases h2 : MIN ≤ digitsValS true (n * 10 - ((d - 0x30 : Nat) : Int)) ds
      · rw [if_pos h2] at hrec
        simp [digitLoopS, hd, ← sub_eq_add_neg, hrec, hstep, h2, hcase, hc1, hc2,
          show MIN ≤ n * 10 by omega, show n * 10 ≤ MAX by nlinarith]
      · rw [if_neg h2] at hrec
        simp [digitLoopS, hd, ← sub_eq_add_neg, hrec, hstep, h2, hcase, hc1, hc2,
          show MIN ≤ n * 10 by omega, show n * 10 ≤ MAX by nlinarith]
    · have hmono := digitsValS_mono_neg ds (n * 10 - ((d - 0x30 : Nat) : Int)) (by nlinarith)
      have hgt : ¬ MIN ≤ digitsValS true n (d :: ds) := by
        rw [hstep]; omega
      by_cases h3 : MIN ≤ n * 10
      · simp [digitLoopS, hd, ← sub_eq_add_neg, hgt, h3, hcase,
          show n * 10 ≤ MAX by nlinarith]
      · simp [digitLoopS, hd, ← sub_eq_add_neg, hgt, h3, hcase]

/-- C7: for every signed-integer decode with target range `[MIN, MAX]`,
`MIN ≤ -9 < 9 ≤ MAX` (every real width satisfies this): an optional leading
`-` is recorded as the sign; `-0` is explicitly permitted and yields zero;
accumulation is digit by digit with overflow-checked arithmetic parameterized
by the sign, yielding the value of the numeral exactly when it lies in the range
and `InvalidNumber` otherwise (e.g. `128` and `-129` for an 8-bit target),
never a truncated value. -/
theorem c7_signed_decode :
    (∀ MIN MAX : Int, ∀ s s', parse_whitespace s = (some 0x2D, s') →
        peek (eat_char s') = some 0x30 →
        deserialize_signed MIN MAX s = .ok 0 (eat_char (eat_char s'))) ∧
    (∀ MIN MAX : Int, ∀ d ds rest s s', parse_whitespace s = (some d, s') →
        0x31 ≤ d → d ≤ 0x39 → MIN ≤ 0 → 9 ≤ MAX →
        s'.slice.drop (s'.index + 1) = ds ++ rest →
        ds.all isDigit = true → headNotDigit rest = true →
        deserialize_signed MIN MAX s =
          if digitsValS false ((d - 0x30 : Nat) : Int) ds ≤ MAX then
            .ok (digitsValS false ((d - 0x30 : Nat) : Int) ds)
              { slice := s'.slice, index := s'.index + 1 + ds.length }
          else .err .InvalidNumber) ∧
    (∀ MIN MAX : Int, ∀ d ds rest s s', parse_whitespace s = (some 0x2D, s') →
        peek (eat_char s') = some d →
        0x31 ≤ d → d ≤ 0x39 → MIN ≤ -9 → 0 ≤ MAX →
        s'.slice.drop (s'.index + 2) = ds ++ rest →
        ds.all isDigit = true → headNotDigit rest = true →
        deserialize_signed MIN MAX s =
          if MIN ≤ digitsValS true (-((d - 0x30 : Nat) : Int)) ds then
            .ok (digitsValS true (-((d - 0x30 : Nat) : Int)) ds)
              { slice := s'.slice, index := s'.index + 2 + ds.length }
          else .err .InvalidNumber) := by
  refine ⟨?_, ?_, ?_⟩
  · intro MIN MAX s s' h hpeek
    simp [deserialize_signed, h, hpeek]
  · intro MIN MAX d ds rest s s' h hd1 hd2 hMIN hMAX hdrop hds hrest
    have hpeek : peek s' = some d := parse_whitespace_peek s _ s' h
    have hsgn : decide (d = 0x2D) = false := decide_eq_false (by omega)
    have hloop := digitLoopS_spec_pos MIN MAX hMIN ds rest ((d - 0x30 : Nat) : Int)
      (Int.natCast_nonneg _) (by
        have : ((d - 0x30 : Nat) : Int) ≤ 9 := by
          have : d - 0x30 ≤ 9 := by omega
          exact_mod_cast this
        omega) hds hrest
    by_cases hok : digitsValS false ((d - 0x30 : Nat) : Int) ds ≤ MAX
    · rw [if_pos hok] at hloop
      simp only [deserialize_signed, h, hsgn, if_false, Bool.false_eq_true, hpeek]
      rw [if_neg (show ¬ d = 0x30 by omega), if_pos (show 0x31 ≤ d ∧ d ≤ 0x39 by omega)]
      simp [eat_char, hdrop, hloop, hok]
    · rw [if_neg hok] at hloop
      simp only [deserialize_signed, h, hsgn, if_false, Bool.false_eq_true, hpeek]
      rw [if_neg (show ¬ d = 0x30 by omega), if_pos (show 0x31 ≤ d ∧ d ≤ 0x39 by omega)]
      simp [eat_char, hdrop, hloop, hok]
  · intro MIN MAX d ds rest s s' h hpeek hd1 hd2 hMIN hMAX hdrop hds hrest
    have hsgn : decide ((0x2D : Nat) = 0x2D) = true := by decide
    have hn0 : -((d - 0x30 : Nat) : Int) ≤ 0 := by
      have := Int.natCast_nonneg (d - 0x30)
      omega
    have hnMIN : MIN ≤ -((d - 0x30 : Nat) : Int) := by
      have : ((d - 0x30 : Nat) : Int) ≤ 9 := by
        have : d - 0x30 ≤ 9 := by omega
        exact_mod_cast this
      omega
    have hloop := digitLoopS_spec_neg MIN MAX hMAX ds rest (-((d - 0x30 : Nat) : Int))
      hn0 hnMIN hds hrest
    have harith : ((d - 0x30 : Nat) : Int) * (-1) = -((d - 0x30 : Nat) : Int) := by ring
    by_cases hok : MIN ≤ digitsValS true (-((d - 0x30 : Nat) : Int)) ds
    · rw [if_pos hok] at hloop
      simp only [deserialize_signed, h, decide_True, if_true, hpeek]
      rw [if_neg (show ¬ d = 0x30 by omega), if_pos (show 0x31 ≤ d ∧ d ≤ 0x39 by omega)]
      simp only [eat_char, harith]
      simp [hdrop, hloop, hok, Nat.add_assoc]
    · rw [if_neg hok] at hloop
      simp only [deserialize_signed, h, decide_True, if_true, hpeek]
      rw [if_neg (show ¬ d = 0x30 by omega), if_pos (show 0x31 ≤ d ∧ d ≤ 0x39 by omega)]
      simp only [eat_char, harith]
      simp [hdrop, hloop, hok, Nat.add_assoc]

theorem c7_witness :
    deserialize_signed (-128) 127 { slice := [0x2D, 0x30], index := 0 } =
      .ok 0 { slice := [0x2D, 0x30], index := 2 } ∧
    deserialize_signed (-128) 127 { slice := [0x2D, 0x31, 0x32, 0x38], index := 0 } =
      .ok (-128) { slice := [0x2D, 0x31, 0x32, 0x38], index := 4 } ∧
    deserialize_signed (-128) 127 { slice := [0x2D, 0x31, 0x32, 0x39], index := 0 } =
      .err .InvalidNumber ∧
    deserialize_signed (-128) 127 { slice := [0x31, 0x32, 0x38], index := 0 } =
      .err .InvalidNumber ∧
    deserialize_signed (-128) 127 { slice := [0x31, 0x32, 0x37], index := 0 } =
      .ok 127 { slice := [0x31, 0x32, 0x37], index := 3 } := by
  refine ⟨?_, ?_, ?_, ?_, ?_⟩
  · have h := c7_signed_decode.1 (-128) 127 { slice := [0x2D, 0x30], index := 0 }
      { slice := [0x2D, 0x30], index := 0 } (by decide) (by decide)
    simpa [eat_char] using h
  · have h := c7_signed_decode.2.2 (-128) 127 0x31 [0x32, 0x38] []
      { slice := [0x2D, 0x31, 0x32, 0x38], index := 0 }
      { slice := [0x2D, 0x31, 0x32, 0x38], index := 0 }
      (by decide) (by decide) (by decide) (by decide) (by decide) (by decide)
      (by decide) (by decide) (by decide)
    simpa [digitsValS] using h
  · have h := c7_signed_decode.2.2 (-128) 127 0x31 [0x32, 0x39] []
      { slice := [0x2D, 0x31, 0x32, 0x39], index := 0 }
      { slice := [0x2D, 0x31, 0x32, 0x39], index := 0 }
      (by decide) (by decide) (by decide) (by decide) (by decide) (by decide)
      (by decide) (by decide) (by decide)
    simpa [digitsValS] using h
  · have h := c7_signed_decode.2.1 (-128) 127 0x31 [0x32, 0x38] []
      { slice := [0x31, 0x32, 0x38], index := 0 }
      { slice := [0x31, 0x32, 0x38], index := 0 }
      (by decide) (by decide) (by decide) (by decide) (by decide) (by decide)
      (by decide) (by decide)
    simpa [digitsValS] using h
  · have h := c7_signed_decode.2.1 (-128) 127 0x31 [0x32, 0x37] []
      { slice := [0x31, 0x32, 0x37], index := 0 }
      { slice := [0x31, 0x32, 0x37], index := 0 }
      (by decide) (by decide) (by decide) (by decide) (by decide) (by decide)
      (by decide) (by decide)
    simpa [digitsValS] using h

/-! ## C3: top-level parsing with surrounding whitespace -/

theorem drop_tail (l : List Nat) (i b : Nat) (rest : List Nat)
    (h : l.drop i = b :: rest) : l.drop (i + 1) = rest := by
  rw [drop_index_add, h]
  simp

theorem parse_ident_spec :
    ∀ (ident : List Nat) (s : De) (rest : List Nat),
      s.slice.drop s.index = ident ++ rest →
      parse_ident ident s = .ok () { slice := s.slice, index := s.index + ident.length } := by
  intro ident
  induction ident with
  | nil => intro s rest h; simp [parse_ident]
  | cons c ident ih =>
    intro s rest h
    have hpeek : peek s = some c := by rw [peek_eq_head_drop, h]; rfl
    have hdrop : s.slice.drop (s.index + 1) = ident ++ rest := drop_tail _ _ _ _ h
    have hrec := ih (eat_char s) rest (by simpa [eat_char] using hdrop)
    simp only [eat_char] at hrec
    have harith : s.index + 1 + ident.length = s.index + (ident.length + 1) := by omega
    rw [harith] at hrec
    simp [parse_ident, hpeek, eat_char, hrec]

theorem de_end_ws (s : De) (ws : List Nat) (h : s.slice.drop s.index = ws)
    (hws : ws.all isWs = true) :
    de_end s = .ok () { slice := s.slice, index := s.index + ws.length } := by
  have hpw := parse_whitespace_spec s ws [] (by simpa using h) hws (by simp [headNotWs])
  simp [de_end, hpw.1]

theorem de_end_trailing (s : De) (ws : List Nat) (c : Nat) (rest : List Nat)
    (h : s.slice.drop s.index = ws ++ c :: rest)
    (hws : ws.all isWs = true) (hc : isWs c = false) :
    de_end s = .err .TrailingCharacters := by
  have hpw := parse_whitespace_spec s ws (c :: rest) h hws (by simp [headNotWs, hc])
  simp [de_end, hpw.1]

/-- Value-parse characterization for `true`/`false`: after leading whitespace
`ws`, the literal is consumed exactly and the state stops right after it. -/
theorem deserialize_bool_value (s : De) (ws T : List Nat) (v : Bool)
    (h : s.slice.drop s.index = ws ++ (if v then [0x74, 0x72, 0x75, 0x65]
                                       else [0x66, 0x61, 0x6C, 0x73, 0x65]) ++ T)
    (hws : ws.all isWs = true) :
    deserialize_bool s =
      .ok v { slice := s.slice,
              index := s.index + ws.length + (if v then 4 else 5) } ∧
    s.slice.drop (s.index + ws.length + (if v then 4 else 5)) = T := by
  cases v
  · simp only [if_false, Bool.false_eq_true] at h ⊢
    have hpw := parse_whitespace_spec s ws ([0x66, 0x61, 0x6C, 0x73, 0x65] ++ T)
      (by simpa using h) hws (by simp [headNotWs, isWs])
    have hdrop1 : s.slice.drop (s.index + ws.length + 1) = [0x61, 0x6C, 0x73, 0x65] ++ T :=
      drop_tail _ _ _ _ hpw.2
    have hident := parse_ident_spec [0x61, 0x6C, 0x73, 0x65]
      (eat_char { slice := s.slice, index := s.index + ws.length }) T
      (by simpa [eat_char] using hdrop1)
    simp only [eat_char] at hident
    constructor
    · simp only [deserialize_bool, hpw.1, List.cons_append, List.head?_cons]
      norm_num
      rw [show s.index + ws.length + 1 + [0x61, 0x6C, 0x73, 0x65].length
          = s.index + ws.length + 5 by simp] at hident
      simp [eat_char, hident]
    · have harith : s.index + ws.length + 5 = s.index + ws.length + 1 + 4 := by omega
      rw [harith, drop_index_add, hdrop1]
      simp
  · simp only [if_true] at h ⊢
    have hpw := parse_whitespace_spec s ws ([0x74, 0x72, 0x75, 0x65] ++ T)
      (by simpa using h) hws (by simp [headNotWs, isWs])
    have hdrop1 : s.slice.drop (s.index + ws.length + 1) = [0x72, 0x75, 0x65] ++ T :=
      drop_tail _ _ _ _ hpw.2
    have hident := parse_ident_spec [0x72, 0x75, 0x65]
      (eat_char { slice := s.slice, index := s.index + ws.length }) T
      (by simpa [eat_char] using hdrop1)
    simp only [eat_char] at hident
    constructor
    · simp only [deserialize_bool, hpw.1, List.cons_append, List.head?_cons]
      norm_num
      rw [show s.index + ws.length + 1 + [0x72, 0x75, 0x65].length
          = s.index + ws.length + 4 by simp] at hident
      simp [eat_char, hident]
    · have harith : s.index + ws.length + 4 = s.index + ws.length + 1 + 3 := by omega
      rw [harith, drop_index_add, hdrop1]
      simp

/-- Value-parse characterization for unsigned numerals: either the single
digit `0` or a nonzero digit followed by more digits, stopping at the first
non-digit. -/
theorem deserialize_unsigned_value (MAX : Nat) (s : De) (ws : List Nat) (d : Nat)
    (ds T : List Nat)
    (h : s.slice.drop s.index = ws ++ (d :: ds) ++ T)
    (hws : ws.all isWs = true)
    (hnum : (d = 0x30 ∧ ds = []) ∨ (0x31 ≤ d ∧ d ≤ 0x39 ∧ ds.all isDigit = true))
    (hT : headNotDigit T = true) (hMAX : 9 ≤ MAX)
    (hval : digitsVal (d - 0x30) ds ≤ MAX) :
    deserialize_unsigned MAX s =
      .ok (digitsVal (d - 0x30) ds)
        { slice := s.slice, index := s.index + ws.length + 1 + ds.length } ∧
    s.slice.drop (s.index + ws.length + 1 + ds.length) = T := by
  have hpw := parse_whitespace_spec s ws ((d :: ds) ++ T) (by simpa using h) hws
    (by
      rcases hnum with ⟨rfl, rfl⟩ | ⟨h1, h2, _⟩ <;> simp [headNotWs, isWs] <;> omega)
  have hdrop1 : s.slice.drop (s.index + ws.length + 1) = ds ++ T :=
    drop_tail _ _ _ _ (by simpa using hpw.2)
  have hdrop2 : s.slice.drop (s.index + ws.length + 1 + ds.length) = T := by
    rw [drop_index_add s.slice (s.index + ws.length + 1) ds.length, hdrop1, List.drop_left]
  rcases hnum with ⟨rfl, rfl⟩ | ⟨h1, h2, hds⟩
  · refine ⟨?_, by simpa using hdrop2⟩
    simp [deserialize_unsigned, hpw.1, eat_char, digitsVal]
  · refine ⟨?_, hdrop2⟩
    have hloop := digitLoopU_spec MAX ds T (d - 0x30) (by omega) hds hT
    rw [if_pos hval] at hloop
    simp only [deserialize_unsigned, hpw.1, List.cons_append, List.head?_cons]
    rw [if_neg (show ¬ d = 0x2D by omega), if_neg (show ¬ d = 0x30 by omega),
      if_pos (show 0x31 ≤ d ∧ d ≤ 0x39 by omega)]
    simp only [eat_char]
    rw [hdrop1, hloop]

/-- Value-parse characterization for signed numerals without a sign. -/
theorem deserialize_signed_value_pos (MIN MAX : Int) (s : De) (ws : List Nat) (d : Nat)
    (ds T : List Nat)
    (h : s.slice.drop s.index = ws ++ (d :: ds) ++ T)
    (hws : ws.all isWs = true)
    (hnum : (d = 0x30 ∧ ds = []) ∨ (0x31 ≤ d ∧ d ≤ 0x39 ∧ ds.all isDigit = true))
    (hT : headNotDigit T = true) (hMIN : MIN ≤ 0) (hMAX : 9 ≤ MAX)
    (hval : digitsValS false ((d - 0x30 : Nat) : Int) ds ≤ MAX) :
    deserialize_signed MIN MAX s =
      .ok (digitsValS false ((d - 0x30 : Nat) : Int) ds)
        { slice := s.slice, index := s.index + ws.length + 1 + ds.length } ∧
    s.slice.drop (s.index + ws.length + 1 + ds.length) = T := by
  have hpw := parse_whitespace_spec s ws ((d :: ds) ++ T) (by simpa using h) hws
    (by
      rcases hnum with ⟨rfl, rfl⟩ | ⟨h1, h2, _⟩ <;> simp [headNotWs, isWs] <;> omega)
  have hpeek : peek { slice := s.slice, index := s.index + ws.length } = some d := by
    rw [peek_eq_head_drop]
    simp only [hpw.2]
    rfl
  have hdrop1 : s.slice.drop (s.index + ws.length + 1) = ds ++ T :=
    drop_tail _ _ _ _ (by simpa using hpw.2)
  have hdrop2 : s.slice.drop (s.index + ws.length + 1 + ds.length) = T := by
    rw [drop_index_add s.slice (s.index + ws.length + 1) ds.length, hdrop1, List.drop_left]
  rcases hnum with ⟨rfl, rfl⟩ | ⟨h1, h2, hds⟩
  · refine ⟨?_, by simpa using hdrop2⟩
    simp [deserialize_signed, hpw.1, hpeek, eat_char, digitsValS]
  · refine ⟨?_, hdrop2⟩
    have hloop := digitLoopS_spec_pos MIN MAX hMIN ds T ((d - 0x30 : Nat) : Int)
      (Int.natCast_nonneg _)
      (by
        have h9 : ((d - 0x30 : Nat) : Int) ≤ 9 := by
          have : d - 0x30 ≤ 9 := by omega
          exact_mod_cast this
        omega) hds hT
    rw [if_pos hval] at hloop
    have hsgn : decide (d = 0x2D) = false := decide_eq_false (by omega)
    simp only [deserialize_signed, hpw.1, List.cons_append, List.head?_cons, hsgn,
      if_false, Bool.false_eq_true, hpeek]
    rw [if_neg (show ¬ d = 0x30 by omega), if_pos (show 0x31 ≤ d ∧ d ≤ 0x39 by omega)]
    simp only [eat_char, mul_one]
    rw [hdrop1, hloop]

/-- Value-parse characterization for signed numerals with a leading `-`
(including `-0`). -/
theorem deserialize_signed_value_neg (MIN MAX : Int) (s : De) (ws : List Nat) (d : Nat)
    (ds T : List Nat)
    (h : s.slice.drop s.index = ws ++ (0x2D :: d :: ds) ++ T)
    (hws : ws.all isWs = true)
    (hnum : (d = 0x30 ∧ ds = []) ∨ (0x31 ≤ d ∧ d ≤ 0x39 ∧ ds.all isDigit = true))
    (hT : headNotDigit T = true) (hMIN : MIN ≤ -9) (hMAX : 0 ≤ MAX)
    (hval : MIN ≤ digitsValS true (-((d - 0x30 : Nat) : Int)) ds) :
    deserialize_signed MIN MAX s =
      .ok (digitsValS true (-((d - 0x30 : Nat) : Int)) ds)
        { slice := s.slice, index := s.index + ws.length + 2 + ds.length } ∧
    s.slice.drop (s.index + ws.length + 2 + ds.length) = T := by
  have hpw := parse_whitespace_spec s ws ((0x2D :: d :: ds) ++ T) (by simpa using h) hws
    (by simp [headNotWs, isWs])
  have hdrop1 : s.slice.drop (s.index + ws.length + 1) = d :: (ds ++ T) :=
    drop_tail _ _ _ _ (by simpa using hpw.2)
  have hpeek : peek { slice := s.slice, index := s.index + ws.length + 1 } = some d := by
    rw [peek_eq_head_drop]
    simp only [hdrop1]
    rfl
  have hdrop2 : s.slice.drop (s.index + ws.length + 2) = ds ++ T := by
    have := drop_tail s.slice (s.index + ws.length + 1) d (ds ++ T) hdrop1
    simpa [Nat.add_assoc] using this
  have hdrop3 : s.slice.drop (s.index + ws.length + 2 + ds.length) = T := by
    rw [drop_index_add s.slice (s.index + ws.length + 2) ds.length, hdrop2, List.drop_left]
  rcases hnum with ⟨rfl, rfl⟩ | ⟨h1, h2, hds⟩
  · refine ⟨?_, by simpa using hdrop3⟩
    have hpeek' : peek { slice := s.slice, index := s.index + (ws.length + 1) } = some 0x30 := by
      rw [show s.index + (ws.length + 1) = s.index + ws.length + 1 by omega]
      exact hpeek
    simp [deserialize_signed, hpw.1, decide_True, eat_char, Nat.add_assoc, hpeek', digitsValS]
  · refine ⟨?_, hdrop3⟩
    have hn0 : -((d - 0x30 : Nat) : Int) ≤ 0 := by
      have := Int.natCast_nonneg (d - 0x30)
      omega
    have hnMIN : MIN ≤ -((d - 0x30 : Nat) : Int) := by
      have h9 : ((d - 0x30 : Nat) : Int) ≤ 9 := by
        have : d - 0x30 ≤ 9 := by omega
        exact_mod_cast this
      omega
    have hloop := digitLoopS_spec_neg MIN MAX hMAX ds T (-((d - 0x30 : Nat) : Int))
      hn0 hnMIN hds hT
    rw [if_pos hval] at hloop
    have harith : ((d - 0x30 : Nat) : Int) * (-1) = -((d - 0x30 : Nat) : Int) := by ring
    simp only [deserialize_signed, hpw.1, List.cons_append, List.head?_cons, decide_True,
      if_true, eat_char, hpeek]
    rw [if_neg (show ¬ d = 0x30 by omega), if_pos (show 0x31 ≤ d ∧ d ≤ 0x39 by omega)]
    simp only [harith]
    rw [show s.index + ws.length + 1 + 1 = s.index + ws.length + 2 by omega, hdrop2, hloop]

theorem floatChar_not_ws (b : Nat) (h : floatChar b = true) : isWs b = false := by
  simp only [floatChar, isDigit, Bool.or_eq_true, decide_eq_true_eq,
    Bool.and_eq_true] at h
  simp only [isWs, Bool.or_eq_false_iff, decide_eq_false_iff_not]
  omega

theorem fromstrLoop_run :
    ∀ (tok : List Nat) (c : Nat) (rest : List Nat),
      tok.all floatChar = true → floatChar c = false →
      fromstrLoop (tok ++ c :: rest) = .ok tok := by
  intro tok
  induction tok with
  | nil => intro c rest _ hc; simp [fromstrLoop, hc]
  | cons t tok ih =>
    intro c rest htok hc
    simp only [List.all_cons, Bool.and_eq_true] at htok
    simp [fromstrLoop, htok.1, ih c rest htok.2 hc]

theorem fromstrLoop_eof :
    ∀ (tok : List Nat), tok.all floatChar = true →
      fromstrLoop tok = .error .EofWhileParsingNumber := by
  intro tok
  induction tok with
  | nil => intro _; simp [fromstrLoop]
  | cons t tok ih =>
    intro htok
    simp only [List.all_cons, Bool.and_eq_true] at htok
    simp [fromstrLoop, htok.1, ih htok.2]

/-- Value-parse characterization for floats: the maximal run of float
characters is captured and handed to the conversion. -/
theorem deserialize_fromstr_value {α : Type} (conv : List Nat → Option α) (v : α)
    (s : De) (ws tok T : List Nat) (c : Nat)
    (h : s.slice.drop s.index = ws ++ tok ++ c :: T)
    (hws : ws.all isWs = true) (htok : tok.all floatChar = true) (htok0 : tok ≠ [])
    (hc : floatChar c = false) (hconv : conv tok = some v) :
    deserialize_fromstr conv s =
      .ok v { slice := s.slice, index := s.index + ws.length + tok.length } ∧
    s.slice.drop (s.index + ws.length + tok.length) = c :: T := by
  obtain ⟨t0, tok', rfl⟩ : ∃ t0 tok', tok = t0 :: tok' := by
    cases tok with
    | nil => exact absurd rfl htok0
    | cons a b => exact ⟨a, b, rfl⟩
  have ht0 : floatChar t0 = true := by
    simp only [List.all_cons, Bool.and_eq_true] at htok
    exact htok.1
  have hpw := parse_whitespace_spec s ws ((t0 :: tok') ++ c :: T) (by simpa using h) hws
    (by simp [headNotWs, floatChar_not_ws t0 ht0])
  have hrun := fromstrLoop_run (t0 :: tok') c T htok hc
  refine ⟨?_, ?_⟩
  · simp only [deserialize_fromstr, hpw.1, List.cons_append, List.head?_cons]
    rw [show List.drop (s.index + ws.length) s.slice = (t0 :: tok') ++ c :: T from hpw.2]
    rw [hrun]
    simp [hconv, Nat.add_assoc]
  · rw [drop_index_add s.slice (s.index + ws.length) (t0 :: tok').length,
      hpw.2, List.drop_left]

/-- A float numeral that runs to the end of input fails with
`EofWhileParsingNumber`. -/
theorem deserialize_fromstr_eof {α : Type} (conv : List Nat → Option α)
    (s : De) (ws tok : List Nat)
    (h : s.slice.drop s.index = ws ++ tok)
    (hws : ws.all isWs = true) (htok : tok.all floatChar = true) (htok0 : tok ≠ []) :
    deserialize_fromstr conv s = .err .EofWhileParsingNumber := by
  obtain ⟨t0, tok', rfl⟩ : ∃ t0 tok', tok = t0 :: tok' := by
    cases tok with
    | nil => exact absurd rfl htok0
    | cons a b => exact ⟨a, b, rfl⟩
  have ht0 : floatChar t0 = true := by
    simp only [List.all_cons, Bool.and_eq_true] at htok
    exact htok.1
  have hpw := parse_whitespace_spec s ws (t0 :: tok') h hws
    (by simp [headNotWs, floatChar_not_ws t0 ht0])
  have hrun := fromstrLoop_eof (t0 :: tok') htok
  simp only [deserialize_fromstr, hpw.1, List.head?_cons]
  rw [hpw.2, hrun]

/-- Value-parse characterization for literal strings. -/
theorem deserialize_str_value (s : De) (ws content T : List Nat)
    (h : s.slice.drop s.index = ws ++ 0x22 :: (content ++ 0x22 :: T))
    (hws : ws.all isWs = true)
    (hcontent : literalContent content = true) (hutf8 : utf8Valid content = true) :
    deserialize_str s = .ok content { slice := 0x22 :: T, index := 1 } := by
  have hpw := parse_whitespace_spec s ws (0x22 :: (content ++ 0x22 :: T)) h hws
    (by simp [headNotWs, isWs])
  have hdrop1 : s.slice.drop (s.index + ws.length + 1) = content ++ 0x22 :: T :=
    drop_tail _ _ _ _ hpw.2
  have huns := unescapeLoop_literal_copy content [] T
    ((content ++ 0x22 :: T).length + 1) (by simp) hcontent
  simp only [List.nil_append, List.length_nil] at huns
  simp only [deserialize_str, hpw.1, List.head?_cons, parse_str, eat_char, if_true]
  rw [hdrop1]
  simp only [Nat.zero_add] at huns
  simp only [unescape_string_to_termination]
  rw [huns]
  simp [hutf8, List.take_left, List.drop_left, Nat.add_sub_cancel_left]

theorem allWs_headNotDigit (ws : List Nat) (h : ws.all isWs = true) :
    headNotDigit ws = true := by
  cases ws with
  | nil => rfl
  | cons b t =>
    simp only [List.all_cons, Bool.and_eq_true] at h
    have := h.1
    simp only [isWs, Bool.or_eq_true, decide_eq_true_eq] at this
    simp only [headNotDigit, isDigit, Bool.not_eq_true', Bool.and_eq_false_iff,
      decide_eq_false_iff_not]
    omega

theorem isWs_not_floatChar (b : Nat) (h : isWs b = true) : floatChar b = false := by
  simp only [isWs, Bool.or_eq_true, decide_eq_true_eq] at h
  simp only [floatChar, isDigit, Bool.or_eq_false_iff, Bool.and_eq_false_iff,
    decide_eq_false_iff_not]
  omega

/-- Behaviour of `from_slice` on a successful decode followed by all-whitespace remainder. -/
theorem from_slice_of_ok {α : Type} (de : De → PRes α) (bytes : List Nat) (v : α)
    (i : Nat) (ws2 : List Nat)
    (hde : de { slice := bytes, index := 0 } = .ok v { slice := bytes, index := i })
    (hdrop : bytes.drop i = ws2) (hws2 : ws2.all isWs = true) :
    from_slice de bytes = .ok v { slice := bytes, index := i + ws2.length } := by
  have hend := de_end_ws { slice := bytes, index := i } ws2 hdrop hws2
  simp [from_slice, hde, hend]

/-- Behaviour of `from_slice` on a successful decode followed by whitespace and then a
non-whitespace byte: `TrailingCharacters`. -/
theorem from_slice_of_trailing {α : Type} (de : De → PRes α) (bytes : List Nat) (v : α)
    (i : Nat) (ws2 : List Nat) (c : Nat) (rest : List Nat) (s' : De)
    (hde : de { slice := bytes, index := 0 } = .ok v s')
    (hs' : s'.slice = bytes ∧ s'.index = i)
    (hdrop : bytes.drop i = ws2 ++ c :: rest)
    (hws2 : ws2.all isWs = true) (hc : isWs c = false) :
    from_slice de bytes = .err .TrailingCharacters := by
  obtain ⟨h1, h2⟩ := hs'
  have hend := de_end_trailing s' ws2 c rest (by rw [h1, h2]; exact hdrop) hws2 hc
  simp [from_slice, hde, hend]

/-- C3 helper: booleans embedded in whitespace. -/
theorem from_slice_bool_ws (v : Bool) (ws1 ws2 : List Nat)
    (h1 : ws1.all isWs = true) (h2 : ws2.all isWs = true) :
    from_slice deserialize_bool
        (ws1 ++ (if v then [0x74, 0x72, 0x75, 0x65]
                 else [0x66, 0x61, 0x6C, 0x73, 0x65]) ++ ws2) =
      .ok v { slice := ws1 ++ (if v then [0x74, 0x72, 0x75, 0x65]
                               else [0x66, 0x61, 0x6C, 0x73, 0x65]) ++ ws2,
              index := ws1.length + (if v then 4 else 5) + ws2.length } := by
  have hv := deserialize_bool_value
    { slice := ws1 ++ (if v then [0x74, 0x72, 0x75, 0x65]
               else [0x66, 0x61, 0x6C, 0x73, 0x65]) ++ ws2, index := 0 }
    ws1 ws2 v (by simp) h1
  simp only [Nat.zero_add] at hv
  exact from_slice_of_ok deserialize_bool _ v _ ws2 hv.1 hv.2 h2

/-- C3 helper: booleans followed by a trailing non-whitespace byte. -/
theorem from_slice_bool_trailing (v : Bool) (ws1 ws2 : List Nat) (c : Nat) (rest : List Nat)
    (h1 : ws1.all isWs = true) (h2 : ws2.all isWs = true) (hc : isWs c = false) :
    from_slice deserialize_bool
        (ws1 ++ (if v then [0x74, 0x72, 0x75, 0x65]
                 else [0x66, 0x61, 0x6C, 0x73, 0x65]) ++ (ws2 ++ c :: rest)) =
      .err .TrailingCharacters := by
  have hv := deserialize_bool_value
    { slice := ws1 ++ (if v then [0x74, 0x72, 0x75, 0x65]
               else [0x66, 0x61, 0x6C, 0x73, 0x65]) ++ (ws2 ++ c :: rest), index := 0 }
    ws1 (ws2 ++ c :: rest) v (by simp) h1
  simp only [Nat.zero_add] at hv
  exact from_slice_of_trailing deserialize_bool _ v _ ws2 c rest _ hv.1 ⟨rfl, rfl⟩ hv.2 h2 hc

/-- C3 helper: unsigned numerals embedded in whitespace. -/
theorem from_slice_unsigned_ws (MAX : Nat) (d : Nat) (ds ws1 ws2 : List Nat)
    (h1 : ws1.all isWs = true) (h2 : ws2.all isWs = true)
    (hnum : (d = 0x30 ∧ ds = []) ∨ (0x31 ≤ d ∧ d ≤ 0x39 ∧ ds.all isDigit = true))
    (hMAX : 9 ≤ MAX) (hval : digitsVal (d - 0x30) ds ≤ MAX) :
    from_slice (deserialize_unsigned MAX) (ws1 ++ (d :: ds) ++ ws2) =
      .ok (digitsVal (d - 0x30) ds)
        { slice := ws1 ++ (d :: ds) ++ ws2,
          index := ws1.length + 1 + ds.length + ws2.length } := by
  have hv := deserialize_unsigned_value MAX
    { slice := ws1 ++ (d :: ds) ++ ws2, index := 0 } ws1 d ds ws2
    (by simp) h1 hnum (allWs_headNotDigit ws2 h2) hMAX hval
  simp only [Nat.zero_add] at hv
  exact from_slice_of_ok (deserialize_unsigned MAX) _ _ _ ws2 hv.1 hv.2 h2

/-- C3 helper: unsigned numerals with a trailing non-whitespace byte. -/
theorem from_slice_unsigned_trailing (MAX : Nat) (d : Nat) (ds ws1 ws2 : List Nat)
    (c : Nat) (rest : List Nat)
    (h1 : ws1.all isWs = true) (h2 : ws2.all isWs = true) (hc : isWs c = false)
    (hnum : (d = 0x30 ∧ ds = []) ∨ (0x31 ≤ d ∧ d ≤ 0x39 ∧ ds.all isDigit = true))
    (hT : headNotDigit (ws2 ++ c :: rest) = true)
    (hMAX : 9 ≤ MAX) (hval : digitsVal (d - 0x30) ds ≤ MAX) :
    from_slice (deserialize_unsigned MAX) (ws1 ++ (d :: ds) ++ (ws2 ++ c :: rest)) =
      .err .TrailingCharacters := by
  have hv := deserialize_unsigned_value MAX
    { slice := ws1 ++ (d :: ds) ++ (ws2 ++ c :: rest), index := 0 } ws1 d ds
    (ws2 ++ c :: rest) (by simp) h1 hnum hT hMAX hval
  simp only [Nat.zero_add] at hv
  exact from_slice_of_trailing (deserialize_unsigned MAX) _ _ _ ws2 c rest _
    hv.1 ⟨rfl, rfl⟩ hv.2 h2 hc

/-- C3 helper: signed numerals (with or without a leading `-`) embedded in
whitespace. -/
theorem from_slice_signed_ws (MIN MAX : Int) (d : Nat) (ds ws1 ws2 : List Nat)
    (sign : Bool)
    (h1 : ws1.all isWs = true) (h2 : ws2.all isWs = true)
    (hnum : (d = 0x30 ∧ ds = []) ∨ (0x31 ≤ d ∧ d ≤ 0x39 ∧ ds.all isDigit = true))
    (hMIN : MIN ≤ -9) (hMAX : 9 ≤ MAX)
    (hval : if sign then MIN ≤ digitsValS true (-((d - 0x30 : Nat) : Int)) ds
            else digitsValS false ((d - 0x30 : Nat) : Int) ds ≤ MAX) :
    from_slice (deserialize_signed MIN MAX)
        (ws1 ++ ((if sign then [0x2D] else []) ++ d :: ds) ++ ws2) =
      .ok (if sign then digitsValS true (-((d - 0x30 : Nat) : Int)) ds
           else digitsValS false ((d - 0x30 : Nat) : Int) ds)
        { slice := ws1 ++ ((if sign then [0x2D] else []) ++ d :: ds) ++ ws2,
          index := ws1.length + (if sign then 2 else 1) + ds.length + ws2.length } := by
  cases sign
  · simp only [if_false, Bool.false_eq_true, List.nil_append] at hval ⊢
    have hv := deserialize_signed_value_pos MIN MAX
      { slice := ws1 ++ (d :: ds) ++ ws2, index := 0 } ws1 d ds ws2
      (by simp) h1 hnum (allWs_headNotDigit ws2 h2) (by omega) hMAX hval
    simp only [Nat.zero_add] at hv
    exact from_slice_of_ok (deserialize_signed MIN MAX) _ _ _ ws2 hv.1 hv.2 h2
  · simp only [if_true] at hval ⊢
    have hv := deserialize_signed_value_neg MIN MAX
      { slice := ws1 ++ ([0x2D] ++ d :: ds) ++ ws2, index := 0 } ws1 d ds ws2
      (by simp) h1 hnum (allWs_headNotDigit ws2 h2) hMIN (by omega) hval
    simp only [Nat.zero_add] at hv
    exact from_slice_of_ok (deserialize_signed MIN MAX) _ _ _ ws2 hv.1 hv.2 h2

/-- C3 helper: signed numerals with a trailing non-whitespace byte. -/
theorem from_slice_signed_trailing (MIN MAX : Int) (d : Nat) (ds ws1 ws2 : List Nat)
    (c : Nat) (rest : List Nat)
    (h1 : ws1.all isWs = true) (h2 : ws2.all isWs = true) (hc : isWs c = false)
    (hnum : (d = 0x30 ∧ ds = []) ∨ (0x31 ≤ d ∧ d ≤ 0x39 ∧ ds.all isDigit = true))
    (hT : headNotDigit (ws2 ++ c :: rest) = true)
    (hMIN : MIN ≤ -9) (hMAX : 9 ≤ MAX)
    (hval : digitsValS false ((d - 0x30 : Nat) : Int) ds ≤ MAX) :
    from_slice (deserialize_signed MIN MAX) (ws1 ++ (d :: ds) ++ (ws2 ++ c :: rest)) =
      .err .TrailingCharacters := by
  have hv := deserialize_signed_value_pos MIN MAX
    { slice := ws1 ++ (d :: ds) ++ (ws2 ++ c :: rest), index := 0 } ws1 d ds
    (ws2 ++ c :: rest) (by simp) h1 hnum hT (by omega) hMAX hval
  simp only [Nat.zero_add] at hv
  exact from_slice_of_trailing (deserialize_signed MIN MAX) _ _ _ ws2 c rest _
    hv.1 ⟨rfl, rfl⟩ hv.2 h2 hc

/-- C3 helper: literal strings embedded in whitespace. -/
theorem from_slice_str_ws (content ws1 ws2 : List Nat)
    (h1 : ws1.all isWs = true) (h2 : ws2.all isWs = true)
    (hcontent : literalContent content = true) (hutf8 : utf8Valid content = true) :
    from_slice deserialize_str (ws1 ++ 0x22 :: (content ++ 0x22 :: ws2)) =
      .ok content { slice := 0x22 :: ws2, index := 1 + ws2.length } := by
  have hv := deserialize_str_value
    { slice := ws1 ++ 0x22 :: (content ++ 0x22 :: ws2), index := 0 } ws1 content ws2
    (by simp) h1 hcontent hutf8
  have hend := de_end_ws { slice := 0x22 :: ws2, index := 1 } ws2 (by simp) h2
  simp [from_slice, hv, hend]

/-- C3 helper: a string with a trailing non-whitespace byte. -/
theorem from_slice_str_trailing (content ws1 ws2 : List Nat) (c : Nat) (rest : List Nat)
    (h1 : ws1.all isWs = true) (h2 : ws2.all isWs = true) (hc : isWs c = false)
    (hcontent : literalContent content = true) (hutf8 : utf8Valid content = true) :
    from_slice deserialize_str (ws1 ++ 0x22 :: (content ++ 0x22 :: (ws2 ++ c :: rest))) =
      .err .TrailingCharacters := by
  have hv := deserialize_str_value
    { slice := ws1 ++ 0x22 :: (content ++ 0x22 :: (ws2 ++ c :: rest)), index := 0 }
    ws1 content (ws2 ++ c :: rest) (by simp) h1 hcontent hutf8
  have hend := de_end_trailing { slice := 0x22 :: (ws2 ++ c :: rest), index := 1 }
    ws2 c rest (by simp) h2 hc
  simp [from_slice, hv, hend]

/-- C3 helper: float tokens followed by whitespace (at least one byte). -/
theorem from_slice_float_ws {α : Type} (conv : List Nat → Option α) (v : α)
    (tok ws1 ws2 : List Nat) (w : Nat)
    (h1 : ws1.all isWs = true) (hw : isWs w = true) (h2 : ws2.all isWs = true)
    (htok : tok.all floatChar = true) (htok0 : tok ≠ []) (hconv : conv tok = some v) :
    from_slice (deserialize_fromstr conv) (ws1 ++ tok ++ w :: ws2) =
      .ok v { slice := ws1 ++ tok ++ w :: ws2,
              index := ws1.length + tok.length + (ws2.length + 1) } := by
  have hv := deserialize_fromstr_value conv v
    { slice := ws1 ++ tok ++ w :: ws2, index := 0 } ws1 tok ws2 w
    (by simp) h1 htok htok0 (isWs_not_floatChar w hw) hconv
  simp only [Nat.zero_add] at hv
  have := from_slice_of_ok (deserialize_fromstr conv) _ v _ (w :: ws2) hv.1 hv.2
    (by simp [hw, h2])
  simpa [Nat.add_assoc, Nat.add_comm 1 ws2.length] using this

/-- C3 helper: a float token at the very end of the input fails. -/
theorem from_slice_float_eof {α : Type} (conv : List Nat → Option α)
    (tok ws1 : List Nat)
    (h1 : ws1.all isWs = true) (htok : tok.all floatChar = true) (htok0 : tok ≠ []) :
    from_slice (deserialize_fromstr conv) (ws1 ++ tok) = .err .EofWhileParsingNumber := by
  have hv := deserialize_fromstr_eof conv
    { slice := ws1 ++ tok, index := 0 } ws1 tok (by simp) h1 htok htok0
  simp [from_slice, hv]

/-- C3 helper: a float with a trailing non-whitespace byte after whitespace. -/
theorem from_slice_float_trailing {α : Type} (conv : List Nat → Option α) (v : α)
    (tok ws1 ws2 : List Nat) (w c : Nat) (rest : List Nat)
    (h1 : ws1.all isWs = true) (hw : isWs w = true) (h2 : ws2.all isWs = true)
    (hc : isWs c = false)
    (htok : tok.all floatChar = true) (htok0 : tok ≠ []) (hconv : conv tok = some v) :
    from_slice (deserialize_fromstr conv) (ws1 ++ tok ++ w :: (ws2 ++ c :: rest)) =
      .err .TrailingCharacters := by
  have hv := deserialize_fromstr_value conv v
    { slice := ws1 ++ tok ++ w :: (ws2 ++ c :: rest), index := 0 } ws1 tok
    (ws2 ++ c :: rest) w (by simp) h1 htok htok0 (isWs_not_floatChar w hw) hconv
  simp only [Nat.zero_add] at hv
  exact from_slice_of_trailing (deserialize_fromstr conv) _ v _ (w :: ws2) c rest _
    hv.1 ⟨rfl, rfl⟩ (by simpa using hv.2) (by simp [hw, h2]) hc

/-- C3 (counterexample): the valid JSON float `1.5` with empty surrounding
whitespace is rejected by the parse-from-bytes entry (`EofWhileParsingNumber`
from the scan loop reaching the end of input), while the same numeral
followed by one space parses — so floats are not accepted with empty trailing
whitespace as the claim states. -/
theorem c3_counterexample :
    from_slice (deserialize_fromstr (fun t => some t)) [0x31, 0x2E, 0x35] =
      .err .EofWhileParsingNumber ∧
    from_slice (deserialize_fromstr (fun t => some t)) [0x31, 0x2E, 0x35, 0x20] =
      .ok [0x31, 0x2E, 0x35] { slice := [0x31, 0x2E, 0x35, 0x20], index := 4 } := by
  refine ⟨by decide, by decide⟩

/-- C3 (amended): for every valid JSON boolean, integer, or string value
embedded in arbitrary (possibly empty) surrounding whitespace, the
parse-from-bytes entry yields the expected typed value and consumes exactly
through the value, tolerating trailing whitespace and rejecting trailing
non-whitespace; floats behave the same except that at least one byte
(e.g. whitespace) must follow the numeral — a float numeral at the very end
of the input fails with `EofWhileParsingNumber`, because the token-scan loop
treats end of input as an error. -/
theorem c3_ws_embedding :
    (∀ (v : Bool) (ws1 ws2 : List Nat), ws1.all isWs = true → ws2.all isWs = true →
      from_slice deserialize_bool
          (ws1 ++ (if v then [0x74, 0x72, 0x75, 0x65]
                   else [0x66, 0x61, 0x6C, 0x73, 0x65]) ++ ws2) =
        .ok v { slice := ws1 ++ (if v then [0x74, 0x72, 0x75, 0x65]
                                 else [0x66, 0x61, 0x6C, 0x73, 0x65]) ++ ws2,
                index := ws1.length + (if v then 4 else 5) + ws2.length }) ∧
    (∀ (v : Bool) (ws1 ws2 : List Nat) (c : Nat) (rest : List Nat),
      ws1.all isWs = true → ws2.all isWs = true → isWs c = false →
      from_slice deserialize_bool
          (ws1 ++ (if v then [0x74, 0x72, 0x75, 0x65]
                   else [0x66, 0x61, 0x6C, 0x73, 0x65]) ++ (ws2 ++ c :: rest)) =
        .err .TrailingCharacters) ∧
    (∀ (MAX d : Nat) (ds ws1 ws2 : List Nat),
      ws1.all isWs = true → ws2.all isWs = true →
      (d = 0x30 ∧ ds = []) ∨ (0x31 ≤ d ∧ d ≤ 0x39 ∧ ds.all isDigit = true) →
      9 ≤ MAX → digitsVal (d - 0x30) ds ≤ MAX →
      from_slice (deserialize_unsigned MAX) (ws1 ++ (d :: ds) ++ ws2) =
        .ok (digitsVal (d - 0x30) ds)
          { slice := ws1 ++ (d :: ds) ++ ws2,
            index := ws1.length + 1 + ds.length + ws2.length }) ∧
    (∀ (MAX d : Nat) (ds ws1 ws2 : List Nat) (c : Nat) (rest : List Nat),
      ws1.all isWs = true → ws2.all isWs = true → isWs c = false →
      (d = 0x30 ∧ ds = []) ∨ (0x31 ≤ d ∧ d ≤ 0x39 ∧ ds.all isDigit = true) →
      headNotDigit (ws2 ++ c :: rest) = true →
      9 ≤ MAX → digitsVal (d - 0x30) ds ≤ MAX →
      from_slice (deserialize_unsigned MAX) (ws1 ++ (d :: ds) ++ (ws2 ++ c :: rest)) =
        .err .TrailingCharacters) ∧
    (∀ (MIN MAX : Int) (d : Nat) (ds ws1 ws2 : List Nat) (sign : Bool),
      ws1.all isWs = true → ws2.all isWs = true →
      (d = 0x30 ∧ ds = []) ∨ (0x31 ≤ d ∧ d ≤ 0x39 ∧ ds.all isDigit = true) →
      MIN ≤ -9 → 9 ≤ MAX →
      (if sign then MIN ≤ digitsValS true (-((d - 0x30 : Nat) : Int)) ds
       else digitsValS false ((d - 0x30 : Nat) : Int) ds ≤ MAX) →
      from_slice (deserialize_signed MIN MAX)
          (ws1 ++ ((if sign then [0x2D] else []) ++ d :: ds) ++ ws2) =
        .ok (if sign then digitsValS true (-((d - 0x30 : Nat) : Int)) ds
             else digitsValS false ((d - 0x30 : Nat) : Int) ds)
          { slice := ws1 ++ ((if sign then [0x2D] else []) ++ d :: ds) ++ ws2,
            index := ws1.length + (if sign then 2 else 1) + ds.length + ws2.length }) ∧
    (∀ (MIN MAX : Int) (d : Nat) (ds ws1 ws2 : List Nat) (c : Nat) (rest : List Nat),
      ws1.all isWs = true → ws2.all isWs = true → isWs c = false →
      (d = 0x30 ∧ ds = []) ∨ (0x31 ≤ d ∧ d ≤ 0x39 ∧ ds.all isDigit = true) →
      headNotDigit (ws2 ++ c :: rest) = true →
      MIN ≤ -9 → 9 ≤ MAX → digitsValS false ((d - 0x30 : Nat) : Int) ds ≤ MAX →
      from_slice (deserialize_signed MIN MAX) (ws1 ++ (d :: ds) ++ (ws2 ++ c :: rest)) =
        .err .TrailingCharacters) ∧
    (∀ (content ws1 ws2 : List Nat),
      ws1.all isWs = true → ws2.all isWs = true →
      literalContent content = true → utf8Valid content = true →
      from_slice deserialize_str (ws1 ++ 0x22 :: (content ++ 0x22 :: ws2)) =
        .ok content { slice := 0x22 :: ws2, index := 1 + ws2.length }) ∧
    (∀ (content ws1 ws2 : List Nat) (c : Nat) (rest : List Nat),
      ws1.all isWs = true → ws2.all isWs = true → isWs c = false →
      literalContent content = true → utf8Valid content = true →
      from_slice deserialize_str
          (ws1 ++ 0x22 :: (content ++ 0x22 :: (ws2 ++ c :: rest))) =
        .err .TrailingCharacters) ∧
    (∀ (α : Type) (conv : List Nat → Option α) (v : α) (tok ws1 ws2 : List Nat) (w : Nat),
      ws1.all isWs = true → isWs w = true → ws2.all isWs = true →
      tok.all floatChar = true → tok ≠ [] → conv tok = some v →
      from_slice (deserialize_fromstr conv) (ws1 ++ tok ++ w :: ws2) =
        .ok v { slice := ws1 ++ tok ++ w :: ws2,
                index := ws1.length + tok.length + (ws2.length + 1) }) ∧
    (∀ (α : Type) (conv : List Nat → Option α) (tok ws1 : List Nat),
      ws1.all isWs = true → tok.all floatChar = true → tok ≠ [] →
      from_slice (deserialize_fromstr conv) (ws1 ++ tok) = .err .EofWhileParsingNumber) ∧
    (∀ (α : Type) (conv : List Nat → Option α) (v : α) (tok ws1 ws2 : List Nat)
        (w c : Nat) (rest : List Nat),
      ws1.all isWs = true → isWs w = true → ws2.all isWs = true → isWs c = false →
      tok.all floatChar = true → tok ≠ [] → conv tok = some v →
      from_slice (deserialize_fromstr conv) (ws1 ++ tok ++ w :: (ws2 ++ c :: rest)) =
        .err .TrailingCharacters) :=
  ⟨from_slice_bool_ws, from_slice_bool_trailing,
   fun MAX d ds ws1 ws2 h1 h2 hnum hMAX hval =>
     from_slice_unsigned_ws MAX d ds ws1 ws2 h1 h2 hnum hMAX hval,
   fun MAX d ds ws1 ws2 c rest h1 h2 hc hnum hT hMAX hval =>
     from_slice_unsigned_trailing MAX d ds ws1 ws2 c rest h1 h2 hc hnum hT hMAX hval,
   fun MIN MAX d ds ws1 ws2 sign h1 h2 hnum hMIN hMAX hval =>
     from_slice_signed_ws MIN MAX d ds ws1 ws2 sign h1 h2 hnum hMIN hMAX hval,
   fun MIN MAX d ds ws1 ws2 c rest h1 h2 hc hnum hT hMIN hMAX hval =>
     from_slice_signed_trailing MIN MAX d ds ws1 ws2 c rest h1 h2 hc hnum hT hMIN hMAX hval,
   from_slice_str_ws, from_slice_str_trailing,
   fun α conv v tok ws1 ws2 w h1 hw h2 htok htok0 hconv =>
     from_slice_float_ws conv v tok ws1 ws2 w h1 hw h2 htok htok0 hconv,
   fun α conv tok ws1 h1 htok htok0 =>
     from_slice_float_eof conv tok ws1 h1 htok htok0,
   fun α conv v tok ws1 ws2 w c rest h1 hw h2 hc htok htok0 hconv =>
     from_slice_float_trailing conv v tok ws1 ws2 w c rest h1 hw h2 hc htok htok0 hconv⟩

theorem c3_witness :
    from_slice deserialize_bool [0x20, 0x74, 0x72, 0x75, 0x65, 0x20] =
      .ok true { slice := [0x20, 0x74, 0x72, 0x75, 0x65, 0x20], index := 6 } ∧
    from_slice deserialize_str [0x20, 0x22, 0x68, 0x69, 0x22, 0x20] =
      .ok [0x68, 0x69] { slice := [0x22, 0x20], index := 2 } ∧
    from_slice (deserialize_unsigned 255) [0x34, 0x32, 0x20] =
      .ok 42 { slice := [0x34, 0x32, 0x20], index := 3 } ∧
    from_slice (deserialize_fromstr (fun t => some t)) [0x31, 0x2E, 0x35] =
      .err .EofWhileParsingNumber := by
  refine ⟨?_, ?_, ?_, ?_⟩
  · have h := c3_ws_embedding.1 true [0x20] [0x20] (by decide) (by decide)
    simpa using h
  · have h := c3_ws_embedding.2.2.2.2.2.2.1 [0x68, 0x69] [0x20] [0x20]
      (by decide) (by decide) (by decide) (by decide)
    simpa using h
  · have h := c3_ws_embedding.2.2.1 255 0x34 [0x32] [] [0x20]
      (by decide) (by decide) (Or.inr (by decide)) (by decide) (by decide)
    simpa [digitsVal] using h
  · have h := c3_ws_embedding.2.2.2.2.2.2.2.2.2.1 (List Nat) (fun t => some t)
      [0x31, 0x2E, 0x35] [] (by decide) (by decide) (by decide)
    simpa using h

/-! ## C8: ignoring unknown values -/

theorem chomp_run :
    ∀ (tok : List Nat) (dl : Nat) (rest : List Nat),
      tok.all (fun x => !(x = 0x2C || x = 0x7D || x = 0x5D)) = true →
      (dl = 0x2C ∨ dl = 0x7D ∨ dl = 0x5D) →
      chomp (tok ++ dl :: rest) = .ok tok.length := by
  intro tok
  induction tok with
  | nil =>
    intro dl rest _ hdl
    rcases hdl with rfl | rfl | rfl <;> simp [chomp]
  | cons b t ih =>
    intro dl rest htok hdl
    simp only [List.all_cons, Bool.and_eq_true] at htok
    have hb := htok.1
    simp only [Bool.not_eq_true', Bool.or_eq_false_iff, decide_eq_false_iff_not] at hb
    obtain ⟨⟨hb1, hb2⟩, hb3⟩ := hb
    simp [chomp, hb1, hb2, hb3, ih dl rest htok.2 hdl]

/-- Behaviour of `deserialize_ignored_any` on a bare token (not a string, container or
delimiter): bytes are consumed one at a time up to but not including the
first structural delimiter, with no validation of their content. -/
theorem ignoredAny_bare (fuel : Nat) (s s₁ : De) (b : Nat) (tok : List Nat)
    (dl : Nat) (rest : List Nat)
    (hpw : parse_whitespace s = (some b, s₁))
    (hb1 : b ≠ 0x22) (hb2 : b ≠ 0x5B) (hb3 : b ≠ 0x7B)
    (hb4 : ¬(b = 0x2C ∨ b = 0x7D ∨ b = 0x5D))
    (hdrop : s₁.slice.drop s₁.index = tok ++ dl :: rest)
    (htok : tok.all (fun x => !(x = 0x2C || x = 0x7D || x = 0x5D)) = true)
    (hdl : dl = 0x2C ∨ dl = 0x7D ∨ dl = 0x5D) :
    ignoredAny (fuel + 1) s = .ok () { slice := s₁.slice, index := s₁.index + tok.length } := by
  have hch := chomp_run tok dl rest htok hdl
  simp only [ignoredAny, hpw]
  rw [if_neg hb1, if_neg hb2, if_neg hb3, if_neg hb4]
  rw [hdrop, hch]

theorem c8_example_nested :
    from_slice_temperature 12 c8Bytes1 = .ok 20 { slice := c8S4, index := 4 } := by
  have p1 : parse_whitespace { slice := c8Bytes1, index := 0 } = (some 0x7B, { slice := c8Bytes1, index := 0 }) := by decide
  have p2 : parse_whitespace { slice := c8Bytes1, index := 1 } = (some 0x22, { slice := c8Bytes1, index := 1 }) := by decide
  have s1 : deserialize_str { slice := c8Bytes1, index := 1 } = .ok temperatureKey { slice := c8S1, index := 1 } := by decide
  have c1 : parse_object_colon { slice := c8S1, index := 1 } = .ok () { slice := c8S1, index := 2 } := by decide
  have u1 : deserialize_unsigned 255 { slice := c8S1, index := 2 } = .ok 20 { slice := c8S1, index := 5 } := by decide
  have p3 : parse_whitespace { slice := c8S1, index := 5 } = (some 0x2C, { slice := c8S1, index := 5 }) := by decide
  have p4 : parse_whitespace { slice := c8S1, index := 6 } = (some 0x22, { slice := c8S1, index := 7 }) := by decide
  have px3 : parse_whitespace { slice := c8S1, index := 7 } = (some 0x22, { slice := c8S1, index := 7 }) := by decide
  have s2 : deserialize_str { slice := c8S1, index := 7 } = .ok [0x75, 0x6E, 0x75, 0x73, 0x65, 0x64] { slice := c8S2, index := 1 } := by decide
  have c2 : parse_object_colon { slice := c8S2, index := 1 } = .ok () { slice := c8S2, index := 2 } := by decide
  have p5 : parse_whitespace { slice := c8S2, index := 2 } = (some 0x5B, { slice := c8S2, index := 3 }) := by decide
  have pk1 : peek { slice := c8S2, index := 3 } = some 0x5B := by decide
  have p6 : parse_whitespace { slice := c8S2, index := 4 } = (some 0x31, { slice := c8S2, index := 4 }) := by decide
  have ch1 : chomp (List.drop 4 c8S2) = .ok 1 := by decide
  have p7 : parse_whitespace { slice := c8S2, index := 5 } = (some 0x2C, { slice := c8S2, index := 5 }) := by decide
  have p8 : parse_whitespace { slice := c8S2, index := 6 } = (some 0x32, { slice := c8S2, index := 6 }) := by decide
  have ch2 : chomp (List.drop 6 c8S2) = .ok 1 := by decide
  have p9 : parse_whitespace { slice := c8S2, index := 7 } = (some 0x2C, { slice := c8S2, index := 7 }) := by decide
  have p10 : parse_whitespace { slice := c8S2, index := 8 } = (some 0x7B, { slice := c8S2, index := 8 }) := by decide
  have p11 : parse_whitespace { slice := c8S2, index := 9 } = (some 0x22, { slice := c8S2, index := 9 }) := by decide
  have s3 : deserialize_str { slice := c8S2, index := 9 } = .ok [0x61] { slice := c8S3, index := 1 } := by decide
  have c3 : parse_object_colon { slice := c8S3, index := 1 } = .ok () { slice := c8S3, index := 2 } := by decide
  have p12 : parse_whitespace { slice := c8S3, index := 2 } = (some 0x22, { slice := c8S3, index := 2 }) := by decide
  have s4 : deserialize_str { slice := c8S3, index := 2 } = .ok [0x62] { slice := c8S4, index := 1 } := by decide
  have p13 : parse_whitespace { slice := c8S4, index := 1 } = (some 0x7D, { slice := c8S4, index := 1 }) := by decide
  have e1 : end_map { slice := c8S4, index := 1 } = .ok () { slice := c8S4, index := 2 } := by decide
  have p14 : parse_whitespace { slice := c8S4, index := 2 } = (some 0x5D, { slice := c8S4, index := 2 }) := by decide
  have e2 : end_seq { slice := c8S4, index := 2 } = .ok () { slice := c8S4, index := 3 } := by decide
  have p15 : parse_whitespace { slice := c8S4, index := 3 } = (some 0x7D, { slice := c8S4, index := 3 }) := by decide
  have e3 : end_map { slice := c8S4, index := 3 } = .ok () { slice := c8S4, index := 4 } := by decide
  have e4 : de_end { slice := c8S4, index := 4 } = .ok () { slice := c8S4, index := 4 } := by decide
  simp [from_slice_temperature, temperatureFields, ignoredAny, ignoredSeqLoop,
    ignoredMapLoop, deserialize_seq, deserialize_map, eat_char, temperatureKey,
    p1, p2, s1, c1, u1, p3, p4, px3, s2, c2, p5, pk1, p6, ch1, p7, p8, ch2, p9, p10, p11,
    s3, c3, p12, s4, p13, e1, p14, e2, p15, e3, e4]

theorem c8_example_bare_token :
    from_slice_temperature 12 c8Bytes2 = .ok 20 { slice := c8T2, index := 20 } := by
  have q1 : parse_whitespace { slice := c8Bytes2, index := 0 } = (some 0x7B, { slice := c8Bytes2, index := 0 }) := by decide
  have q2 : parse_whitespace { slice := c8Bytes2, index := 1 } = (some 0x22, { slice := c8Bytes2, index := 2 }) := by decide
  have px1 : parse_whitespace { slice := c8Bytes2, index := 2 } = (some 0x22, { slice := c8Bytes2, index := 2 }) := by decide
  have t1 : deserialize_str { slice := c8Bytes2, index := 2 } = .ok temperatureKey { slice := c8T1, index := 1 } := by decide
  have d1 : parse_object_colon { slice := c8T1, index := 1 } = .ok () { slice := c8T1, index := 2 } := by decide
  have v1 : deserialize_unsigned 255 { slice := c8T1, index := 2 } = .ok 20 { slice := c8T1, index := 5 } := by decide
  have q3 : parse_whitespace { slice := c8T1, index := 5 } = (some 0x2C, { slice := c8T1, index := 5 }) := by decide
  have q4 : parse_whitespace { slice := c8T1, index := 6 } = (some 0x22, { slice := c8T1, index := 7 }) := by decide
  have px2 : parse_whitespace { slice := c8T1, index := 7 } = (some 0x22, { slice := c8T1, index := 7 }) := by decide
  have t2 : deserialize_str { slice := c8T1, index := 7 } = .ok [0x69, 0x6E, 0x76, 0x61, 0x6C, 0x69, 0x64] { slice := c8T2, index := 1 } := by decide
  have d2 : parse_object_colon { slice := c8T2, index := 1 } = .ok () { slice := c8T2, index := 2 } := by decide
  have q5 : parse_whitespace { slice := c8T2, index := 2 } = (some 0x74, { slice := c8T2, index := 3 }) := by decide
  have ch3 : chomp (List.drop 3 c8T2) = .ok 16 := by decide
  have q6 : parse_whitespace { slice := c8T2, index := 19 } = (some 0x7D, { slice := c8T2, index := 19 }) := by decide
  have f1 : end_map { slice := c8T2, index := 19 } = .ok () { slice := c8T2, index := 20 } := by decide
  have f2 : de_end { slice := c8T2, index := 20 } = .ok () { slice := c8T2, index := 20 } := by decide
  simp [from_slice_temperature, temperatureFields, ignoredAny, deserialize_seq,
    deserialize_map, eat_char, temperatureKey,
    q1, q2, px1, t1, d1, v1, q3, q4, px2, t2, d2, q5, ch3, q6, f1, f2]

/-- C8: when the value to ignore starts (after whitespace) with `"`, `[` or
`\x7b` it is parsed and discarded through the normal string/sequence/struct
path (built into `ignoredAny`); any other bare token is consumed byte by byte
up to the next structural delimiter `,` `\x7d` `]` without validating its
content; consequently unknown object fields — including a nested array with
an object inside, and the malformed token `this-is-ignored` — are skipped
without affecting extraction of the known `temperature` field. -/
theorem c8_ignored_any_skips :
    (∀ (fuel : Nat) (s s₁ : De) (b : Nat) (tok : List Nat) (dl : Nat) (rest : List Nat),
        parse_whitespace s = (some b, s₁) →
        b ≠ 0x22 → b ≠ 0x5B → b ≠ 0x7B → ¬(b = 0x2C ∨ b = 0x7D ∨ b = 0x5D) →
        s₁.slice.drop s₁.index = tok ++ dl :: rest →
        tok.all (fun x => !(x = 0x2C || x = 0x7D || x = 0x5D)) = true →
        (dl = 0x2C ∨ dl = 0x7D ∨ dl = 0x5D) →
        ignoredAny (fuel + 1) s =
          .ok () { slice := s₁.slice, index := s₁.index + tok.length }) ∧
    from_slice_temperature 12 c8Bytes1 = .ok 20 { slice := c8S4, index := 4 } ∧
    from_slice_temperature 12 c8Bytes2 = .ok 20 { slice := c8T2, index := 20 } :=
  ⟨ignoredAny_bare, c8_example_nested, c8_example_bare_token⟩

theorem c8_witness :
    parse_whitespace { slice := [0x78, 0x79, 0x2C], index := 0 } =
      (some 0x78, { slice := [0x78, 0x79, 0x2C], index := 0 }) ∧
    ignoredAny 5 { slice := [0x78, 0x79, 0x2C], index := 0 } =
      .ok () { slice := [0x78, 0x79, 0x2C], index := 2 } := by
  refine ⟨by decide, ?_⟩
  have h := c8_ignored_any_skips.1 4 { slice := [0x78, 0x79, 0x2C], index := 0 }
    { slice := [0x78, 0x79, 0x2C], index := 0 } 0x78 [0x78, 0x79] 0x2C []
    (by decide) (by decide) (by decide) (by decide) (by decide) (by decide)
    (by decide) (by decide)
  simpa using h

end SerdeJsonCore
